import Mathlib

/-!
Verification of the screeps-rust alliance-synchronization core
(`js_src/crypt.js` and `js_src/allianceManager.js`) against its
natural-language specification.

JavaScript strings are modelled as lists of UTF-16 code units
(`List Nat`, well-formed units are below 2^16); JavaScript 32-bit
bitwise coercions (`& 0xffffffff`, `>>>`, `<<`, `^`, Uint32Array
storage) act on the two's-complement bit pattern, which for a value
held in a `Uint32Array` slot is exactly the value modulo 2^32, so all
words are modelled as `Nat` reduced modulo `2^32` at each point where
JavaScript truncates.
-/

set_option maxRecDepth 2000

namespace Crypt

/-- A JavaScript string, as its list of UTF-16 code units. -/
abbrev Str := List Nat

/-- `const DELTA = 0x9E3779B9;` (crypt.js line 1). -/
def DELTA : Nat := 0x9E3779B9

/-- 2^32, the modulus of every 32-bit coercion in crypt.js. -/
def M32 : Nat := 4294967296

/-- JS `(a + b) & 0xffffffff` stored into a `Uint32Array` slot:
addition modulo 2^32 (both quantities are exact in doubles, the
truncation keeps the low 32 bits of the sum). -/
def add32 (a b : Nat) : Nat := (a + b) % M32

/-- JS `(a - b) & 0xffffffff` stored into a `Uint32Array` slot: for
`a < 2^32` and `b < 2^32` the two's-complement pattern of `a - b` is
`(a + 2^32 - b) mod 2^32`. -/
def sub32 (a b : Nat) : Nat := (a + (M32 - b % M32)) % M32

/-- crypt.js `mx` (lines 3-5):
`((z >>> 5 ^ y << 2) + (y >>> 3 ^ z << 4)) ^ ((sum ^ y) + (k[p & 3 ^ e] ^ z))`.
Each `<<` result is consumed by `^`, which truncates it to 32 bits; each
`+` is exact in doubles and is truncated by the outer `^`.  JS operator
precedence makes the key index `(p & 3) ^ e`; an out-of-range
`k[i]` is `undefined`, which behaves as 0 under `^` (modelled by
`getD _ 0`; in the repo the index is always in range). -/
def mx (sum y z p e : Nat) (k : List Nat) : Nat :=
  ((((z >>> 5) ^^^ ((y <<< 2) % M32)) + ((y >>> 3) ^^^ ((z <<< 4) % M32))) % M32) ^^^
    (((sum ^^^ y) + ((k.getD ((p &&& 3) ^^^ e) 0) ^^^ z)) % M32)

/-- One in-place word update of the encryption loop of
`encryptUint32Array` (crypt.js lines 15-20).  At the moment word `p` is
updated, the source's carried variable `z` equals the current value of
`v[(p + len - 1) % len]` (the word updated just before, or the initial
`v[n]` when `p = 0`), and its `y` equals the current value of
`v[(p + 1) % len]` (the not-yet-updated next word for `p < n`, and the
freshly updated `v[0]` for the final word `p = n`), so both reads are
taken from the current array. -/
def encStep (sum e : Nat) (k : List Nat) (v : List Nat) (p : Nat) : List Nat :=
  let len := v.length
  let y := v.getD ((p + 1) % len) 0
  let z := v.getD ((p + len - 1) % len) 0
  v.set p (add32 (v.getD p 0) (mx sum y z p e k))

/-- One full encryption round: words 0, 1, ..., len-1 updated in
increasing order (the loop over `p` plus the final `v[n]` update). -/
def encRound (sum e : Nat) (k : List Nat) (v : List Nat) : List Nat :=
  (List.range v.length).foldl (encStep sum e k) v

/-- The round loop of `encryptUint32Array` (crypt.js line 12-21): `q`
rounds, the running `sum` advanced by `DELTA` mod 2^32 at the top of
each round, `e = sum >>> 2 & 3`. -/
def encRounds (k : List Nat) (v : List Nat) (sum : Nat) : Nat → List Nat
  | 0 => v
  | Nat.succ q =>
    let sum1 := (sum + DELTA) % M32
    encRounds k (encRound sum1 ((sum1 >>> 2) &&& 3) k v) sum1 q

/-- `Math.floor(16 + 52 / length) | 0` (crypt.js lines 12 and 29).
For `length = 0` the JS value is `Infinity`, which `| 0` (and, in the
decryption direction, `(Infinity * DELTA) & 0xffffffff`) turns into 0
rounds. -/
def roundCount (length : Nat) : Nat := if length = 0 then 0 else 16 + 52 / length

/-- crypt.js `encryptUint32Array` (lines 7-23). -/
def encryptUint32Array (v k : List Nat) : List Nat :=
  encRounds k v 0 (roundCount v.length)

/-- One in-place word update of the decryption loop of
`decryptUint32Array` (crypt.js lines 31-37).  At the moment word `p` is
updated, the carried `y` equals the current value of
`v[(p + 1) % len]` (the freshly decrypted next word, or the initial
`v[0]` when `p = n`), and `z` equals the current value of
`v[(p + len - 1) % len]` (the still-encrypted previous word for
`p ≥ 1`, and the freshly decrypted `v[n]` for the final `p = 0`). -/
def decStep (sum e : Nat) (k : List Nat) (v : List Nat) (p : Nat) : List Nat :=
  let len := v.length
  let y := v.getD ((p + 1) % len) 0
  let z := v.getD ((p + len - 1) % len) 0
  v.set p (sub32 (v.getD p 0) (mx sum y z p e k))

/-- One full decryption round: words len-1, len-2, ..., 0 updated in
decreasing order (the loop over `p` down to 1 plus the final `v[0]`
update). -/
def decRound (sum e : Nat) (k : List Nat) (v : List Nat) : List Nat :=
  (List.range v.length).foldr (fun p w => decStep sum e k w p) v

/-- The `while (sum !== 0)` loop of `decryptUint32Array` (crypt.js
lines 30-38), with an explicit fuel of 2^32: `sum` ranges over at most
2^32 distinct values, so 2^32 iterations are enough to reach any
reachable 0 (and the reachable initial sums always reach 0, see
`decWhile_multiple`). -/
def decWhile (k : List Nat) : Nat → List Nat → Nat → List Nat
  | 0, v, _ => v
  | Nat.succ fuel, v, sum =>
    if sum = 0 then v
    else decWhile k fuel (decRound sum ((sum >>> 2) &&& 3) k v) ((sum + (M32 - DELTA)) % M32)

/-- Number of iterations the `while (sum !== 0)` loop of
`decryptUint32Array` performs from a given `sum` (same recursion as
`decWhile`). -/
def decIterCount : Nat → Nat → Nat
  | 0, _ => 0
  | Nat.succ fuel, sum =>
    if sum = 0 then 0
    else decIterCount fuel ((sum + (M32 - DELTA)) % M32) + 1

/-- crypt.js `decryptUint32Array` (lines 25-40): the initial sum is
`(q * DELTA) & 0xffffffff` with `q = Math.floor(16 + 52 / length)`
(`roundCount` above, 0 when the length is 0 since
`(Infinity * DELTA) & 0xffffffff` is 0). -/
def decryptUint32Array (v k : List Nat) : List Nat :=
  decWhile k M32 v ((roundCount v.length * DELTA) % M32)

/-- Value of a hexadecimal digit code unit (`0-9`, `a-f`, `A-F`). -/
def hexVal (c : Nat) : Option Nat :=
  if 0x30 ≤ c ∧ c ≤ 0x39 then some (c - 0x30)
  else if 0x61 ≤ c ∧ c ≤ 0x66 then some (c - 0x61 + 10)
  else if 0x41 ≤ c ∧ c ≤ 0x46 then some (c - 0x41 + 10)
  else none

/-- Accumulating scan of further hexadecimal digits, stopping at the
first invalid character (the tail behaviour of `Number.parseInt` in
base 16). -/
def hexScan : List Nat → Nat → Nat
  | [], acc => acc
  | c :: t, acc =>
    match hexVal c with
    | some d => hexScan t (acc * 16 + d)
    | none => acc

/-- `Number.parseInt(s, 16)` on the 8-character slices produced by
`hexStringToUint32Array`: `none` models `NaN` (first character not a
hex digit); a valid first digit starts a maximal-prefix scan.  (The
host `parseInt` also skips leading whitespace and accepts signs and a
`0x` prefix; none of those characters occur in slices of hex-digit
strings, the only keys the repo produces.) -/
def parseIntHex : Str → Option Nat
  | [] => none
  | c :: t =>
    match hexVal c with
    | some d => some (hexScan t d)
    | none => none

/-- `Uint32Array.from` element coercion (`ToUint32`): `NaN` becomes 0,
numbers are reduced modulo 2^32. -/
def toUint32 : Option Nat → Nat
  | none => 0
  | some v => v % M32

/-- crypt.js `hexStringToUint32Array` (lines 42-47): one word per 8
characters (`s.length >> 3` words), word `i` parsed from
`s.slice(i << 3, (i + 1) << 3)`. -/
def hexStringToUint32Array (s : Str) : List Nat :=
  (List.range (s.length >>> 3)).map
    (fun i => toUint32 (parseIntHex ((s.drop (i <<< 3)).take 8)))

/-- The element formula of `stringToUint32Array` (crypt.js line 104):
`s.charCodeAt(i * 2 + 1) | (s.charCodeAt(i * 2) << 16)`, applied to
consecutive pairs of code units.  The odd singleton case is
unreachable after padding (JS would give `NaN | (a << 16)`, i.e. a low
half of 0). -/
def packPairs : Str → List Nat
  | a :: b :: t => (b ||| (a <<< 16)) :: packPairs t
  | [a] => [0 ||| (a <<< 16)]
  | [] => []

/-- crypt.js `stringToUint32Array` (lines 98-106): odd-length strings
get one trailing space (code unit 32) appended before packing. -/
def stringToUint32Array (s : Str) : List Nat :=
  packPairs (if s.length % 2 > 0 then s ++ [32] else s)

/-- The two code units `data[i] >>> 16 & 0xffff` and `data[i] & 0xffff`
of one word (crypt.js lines 116-117). -/
def unpackAll : List Nat → Str
  | [] => []
  | w :: t => ((w >>> 16) &&& 0xFFFF) :: (w &&& 0xFFFF) :: unpackAll t

/-- crypt.js `uint32ArrayToString` (lines 108-126): empty input gives
the empty string; otherwise every word but the last contributes both
units, the last word contributes its high unit always and its low unit
only when it is not the padding space `' '` (code unit 32). -/
def uint32ArrayToString (data : List Nat) : Str :=
  match data.getLast? with
  | none => []
  | some last =>
    unpackAll data.dropLast ++ [(last >>> 16) &&& 0xFFFF] ++
      (if last &&& 0xFFFF = 32 then [] else [last &&& 0xFFFF])

/-- `String.fromCodePoint`: code points below 0x10000 are one UTF-16
unit; larger ones become a surrogate pair. -/
def fromCodePoint (c : Nat) : Str :=
  if c < 0x10000 then [c]
  else [0xD800 + (c - 0x10000) / 0x400, 0xDC00 + (c - 0x10000) % 0x400]

/-- The shift applied by `uint32ArrayToSafeString` to each 16-bit half
(crypt.js lines 80-89): control units below 32 move to
`0x10800 + u`, surrogate-range units move to `0x10000 - 0xD800 + u`. -/
def safeShift (u : Nat) : Nat :=
  if u < 32 then u + 0x10800
  else if 0xD800 ≤ u ∧ u ≤ 0xDFFF then u + (0x10000 - 0xD800)
  else u

/-- crypt.js `uint32ArrayToSafeString` (lines 74-96): per word, the
shifted high half then the shifted low half, each rendered by
`String.fromCodePoint`. -/
def uint32ArrayToSafeString : List Nat → Str
  | [] => []
  | w :: t =>
    fromCodePoint (safeShift ((w >>> 16) &&& 0xFFFF)) ++
      fromCodePoint (safeShift (w &&& 0xFFFF)) ++ uint32ArrayToSafeString t

/-- `s.codePointAt(i)` reading from the head of the remaining units:
a high surrogate followed by a low surrogate yields the combined code
point and consumes two units, anything else yields the unit itself.
(`safeStringToUint32Array` advances its index by exactly the number of
units each `codePointAt` consumed, so the loop reads the unit list
left to right; an out-of-range read is `undefined`, which under the
range tests and the final `|` behaves as 0.) -/
def readCodePoint : Str → Nat × Str
  | [] => (0, [])
  | u :: t =>
    if 0xD800 ≤ u ∧ u < 0xDC00 then
      match t with
      | u2 :: t2 =>
        if 0xDC00 ≤ u2 ∧ u2 < 0xE000 then
          (0x10000 + (u - 0xD800) * 0x400 + (u2 - 0xDC00), t2)
        else (u, t)
      | [] => (u, [])
    else (u, t)

/-- The unshift applied by `safeStringToUint32Array` to each decoded
code point (crypt.js lines 53-68). -/
def unshiftSafe (c : Nat) : Nat :=
  if c ≥ 0x10800 then c - 0x10800
  else if c ≥ 0x10000 then c + 0xD800 - 0x10000
  else c

/-- The loop of `safeStringToUint32Array` (crypt.js lines 49-72): per
iteration one code point for the high half and one for the low half
are read and unshifted, and packed as `low | (high << 16)`.  Each
iteration consumes at least one unit, so a fuel of the string length
never runs out before the loop condition `i < length` fails. -/
def safeDecodeLoop : Nat → Str → List Nat
  | 0, _ => []
  | _, [] => []
  | Nat.succ fuel, u :: t =>
    let hp := readCodePoint (u :: t)
    let lp := readCodePoint hp.2
    (unshiftSafe lp.1 ||| (unshiftSafe hp.1 <<< 16)) :: safeDecodeLoop fuel lp.2

/-- crypt.js `safeStringToUint32Array` (lines 49-72). -/
def safeStringToUint32Array (s : Str) : List Nat := safeDecodeLoop s.length s

/-- crypt.js `sign` (lines 128-133): a zero-filled array of
`s.length + 4` words, overwritten by `k` at offset 0 and by `s` at
offset 4.  For the tag lengths the repo produces (`k.length = 4`) this
is `k ++ s`; for shorter `k` the uncovered slots stay 0 (longer `k`
would make `v.set(k)` throw and is unreachable). -/
def sign (s k : List Nat) : List Nat :=
  (k.take 4 ++ List.replicate (4 - k.length) 0) ++ s

/-- The mismatch test of `checkSign` (crypt.js line 136):
`k.some((x, i) => x !== s[i])`, where an out-of-range `s[i]` is
`undefined` and therefore differs from every number `x`. -/
def signMismatch (s k : List Nat) : Bool :=
  (List.range k.length).any (fun i => s.get? i != some (k.getD i 0))

/-- crypt.js `checkSign` (lines 135-140): empty array on tag mismatch,
otherwise the words after the 4-word tag. -/
def checkSign (s k : List Nat) : List Nat :=
  if signMismatch s k then [] else s.drop 4

/-- crypt.js `encrypt` (lines 142-147). -/
def encrypt (s k : Str) : Str :=
  let k2 := hexStringToUint32Array k
  let v := sign (stringToUint32Array s) (k2.drop 4)
  uint32ArrayToSafeString (encryptUint32Array v k2)

/-- crypt.js `decrypt` (lines 149-154). -/
def decrypt (s k : Str) : Str :=
  let k2 := hexStringToUint32Array k
  let v := decryptUint32Array (safeStringToUint32Array s) k2
  uint32ArrayToString (checkSign v (k2.drop 4))

end Crypt

namespace Crypt

theorem lor_pack (a b : Nat) (hb : b < 65536) : b ||| (a <<< 16) = a * 65536 + b := by
  have h : a * 65536 + b = 2 ^ 16 * a + b := by ring
  rw [h]
  apply Nat.eq_of_testBit_eq
  intro i
  rw [Nat.testBit_or, Nat.testBit_shiftLeft, Nat.testBit_mul_pow_two_add a hb i]
  by_cases hi : i < 16
  · simp [hi, Nat.not_le.mpr hi]
  · have h16 : 16 ≤ i := Nat.not_lt.mp hi
    have hle : (65536:Nat) ≤ 2 ^ i := by
      calc (65536:Nat) = 2 ^ 16 := by norm_num
      _ ≤ 2 ^ i := Nat.pow_le_pow_right (by norm_num) h16
    have hb2 : b.testBit i = false := Nat.testBit_lt_two_pow (lt_of_lt_of_le hb hle)
    simp [hi, h16, hb2]

theorem and_mask16 (x : Nat) : x &&& 0xFFFF = x % 65536 := by
  have : (0xFFFF : Nat) = 2 ^ 16 - 1 := by norm_num
  rw [this, Nat.and_pow_two_sub_one_eq_mod]

theorem pack_lt (a b : Nat) (ha : a < 65536) (hb : b < 65536) :
    b ||| (a <<< 16) < M32 := by
  rw [lor_pack a b hb]
  have : a * 65536 ≤ 65535 * 65536 := Nat.mul_le_mul_right _ (by omega)
  simp only [M32]; omega

theorem unpack_hi (a b : Nat) (ha : a < 65536) (hb : b < 65536) :
    ((b ||| (a <<< 16)) >>> 16) &&& 0xFFFF = a := by
  rw [lor_pack a b hb, Nat.shiftRight_eq_div_pow, and_mask16]
  have h1 : (a * 65536 + b) / 2 ^ 16 = a := by
    rw [show (2:Nat) ^ 16 = 65536 by norm_num, Nat.mul_comm a 65536, Nat.mul_add_div (by norm_num)]
    omega
  rw [h1, Nat.mod_eq_of_lt ha]

theorem unpack_lo (a b : Nat) (hb : b < 65536) :
    (b ||| (a <<< 16)) &&& 0xFFFF = b := by
  rw [lor_pack a b hb, and_mask16, Nat.mul_comm a 65536, Nat.mul_add_mod, Nat.mod_eq_of_lt hb]

/-- Repacking the two halves of a 32-bit word gives back the word. -/
theorem repack (w : Nat) (hw : w < M32) :
    (w &&& 0xFFFF) ||| (((w >>> 16) &&& 0xFFFF) <<< 16) = w := by
  have hlo : w &&& 0xFFFF = w % 65536 := and_mask16 w
  have hhi : (w >>> 16) &&& 0xFFFF = w / 65536 := by
    rw [Nat.shiftRight_eq_div_pow, and_mask16, show (2:Nat) ^ 16 = 65536 by norm_num]
    rw [Nat.mod_eq_of_lt]
    simp only [M32] at hw
    omega
  rw [hlo, hhi, lor_pack _ _ (Nat.mod_lt _ (by norm_num))]
  omega

end Crypt

namespace Crypt

theorem set_getD_self (v : List Nat) (p : Nat) (hp : p < v.length) :
    v.set p (v.getD p 0) = v := by
  apply List.ext_getElem?
  intro i
  rw [List.getElem?_set]
  by_cases h : p = i
  · subst h
    simp [hp, List.getD_eq_getElem?_getD, List.getElem?_eq_getElem hp]
  · simp [h]

end Crypt

namespace Crypt

theorem mx_lt (sum y z p e : Nat) (k : List Nat) : mx sum y z p e k < M32 := by
  have h : M32 = 2 ^ 32 := by norm_num [M32]
  unfold mx
  rw [h]
  exact Nat.xor_lt_two_pow (by rw [← h]; exact Nat.mod_lt _ (by norm_num [M32]))
    (by rw [← h]; exact Nat.mod_lt _ (by norm_num [M32]))

theorem sub32_add32 (x m : Nat) (hx : x < M32) (hm : m < M32) :
    sub32 (add32 x m) m = x := by
  unfold add32 sub32
  rw [Nat.mod_eq_of_lt hm, Nat.mod_add_mod]
  have h : x + m + (M32 - m) = x + M32 := by omega
  rw [h, Nat.add_mod_right, Nat.mod_eq_of_lt hx]

theorem getD_set_ne (v : List Nat) (p j a : Nat) (h : p ≠ j) :
    (v.set p a).getD j 0 = v.getD j 0 := by
  simp [List.getD_eq_getElem?_getD, List.getElem?_set_ne h]

theorem getD_set_self (v : List Nat) (p a : Nat) (hp : p < v.length) :
    (v.set p a).getD p 0 = a := by
  simp [List.getD_eq_getElem?_getD, List.getElem?_set_self hp]

theorem succ_mod_ne (p len : Nat) (hlen : 2 ≤ len) (hp : p < len) :
    (p + 1) % len ≠ p := by
  rcases Nat.lt_or_ge (p + 1) len with h | h
  · rw [Nat.mod_eq_of_lt h]; omega
  · have : p + 1 = len := by omega
    rw [this, Nat.mod_self]; omega

theorem pred_mod_ne (p len : Nat) (hlen : 2 ≤ len) (hp : p < len) :
    (p + len - 1) % len ≠ p := by
  rcases Nat.eq_zero_or_pos p with h | h
  · subst h
    rw [Nat.mod_eq_of_lt (by omega)]; omega
  · have heq : p + len - 1 = (p - 1) + len := by omega
    rw [heq, Nat.add_mod_right, Nat.mod_eq_of_lt (by omega)]; omega

theorem getD_lt (v : List Nat) (j : Nat) (hv : ∀ x ∈ v, x < M32) (hj : j < v.length) :
    v.getD j 0 < M32 := by
  rw [List.getD_eq_getElem?_getD, List.getElem?_eq_getElem hj]
  exact hv _ (List.getElem_mem hj)

theorem decStep_encStep (sum e : Nat) (k v : List Nat) (p : Nat)
    (hlen : 2 ≤ v.length) (hp : p < v.length) (hv : ∀ x ∈ v, x < M32) :
    decStep sum e k (encStep sum e k v p) p = v := by
  unfold encStep decStep
  simp only [List.length_set]
  rw [getD_set_ne _ _ _ _ (Ne.symm (succ_mod_ne p v.length hlen hp)),
    getD_set_ne _ _ _ _ (Ne.symm (pred_mod_ne p v.length hlen hp)),
    getD_set_self _ _ _ hp,
    sub32_add32 _ _ (getD_lt v p hv hp) (mx_lt _ _ _ _ _ _),
    List.set_set, set_getD_self v p hp]

theorem encStep_bounds (sum e : Nat) (k v : List Nat) (p : Nat)
    (hv : ∀ x ∈ v, x < M32) : ∀ x ∈ encStep sum e k v p, x < M32 := by
  intro x hx
  unfold encStep at hx
  rcases List.mem_or_eq_of_mem_set hx with h | h
  · exact hv x h
  · rw [h]; exact Nat.mod_lt _ (by norm_num [M32])

theorem encStep_length (sum e : Nat) (k v : List Nat) (p : Nat) :
    (encStep sum e k v p).length = v.length := by
  unfold encStep; simp

end Crypt

namespace Crypt

theorem foldl_encStep_length (sum e : Nat) (k : List Nat) :
    ∀ (L : List Nat) (v : List Nat), (L.foldl (encStep sum e k) v).length = v.length := by
  intro L
  induction L with
  | nil => intro v; rfl
  | cons p t ih => intro v; rw [List.foldl_cons, ih, encStep_length]

theorem foldl_encStep_bounds (sum e : Nat) (k : List Nat) :
    ∀ (L : List Nat) (v : List Nat), (∀ x ∈ v, x < M32) →
      ∀ x ∈ L.foldl (encStep sum e k) v, x < M32 := by
  intro L
  induction L with
  | nil => intro v hv; exact hv
  | cons p t ih => intro v hv; exact ih _ (encStep_bounds sum e k v p hv)

theorem foldr_foldl_steps (sum e : Nat) (k : List Nat) :
    ∀ (L : List Nat) (v : List Nat), 2 ≤ v.length → (∀ p ∈ L, p < v.length) →
      (∀ x ∈ v, x < M32) →
      L.foldr (fun p w => decStep sum e k w p) (L.foldl (encStep sum e k) v) = v := by
  intro L
  induction L with
  | nil => intro v _ _ _; rfl
  | cons p t ih =>
    intro v hlen hL hv
    rw [List.foldl_cons, List.foldr_cons]
    rw [ih (encStep sum e k v p) (by rw [encStep_length]; exact hlen)
      (by intro q hq; rw [encStep_length]; exact hL q (List.mem_cons_of_mem _ hq))
      (encStep_bounds sum e k v p hv)]
    exact decStep_encStep sum e k v p hlen (hL p (List.mem_cons_self _ _)) hv

theorem encRound_length (sum e : Nat) (k v : List Nat) :
    (encRound sum e k v).length = v.length := foldl_encStep_length sum e k _ v

theorem encRound_bounds (sum e : Nat) (k v : List Nat) (hv : ∀ x ∈ v, x < M32) :
    ∀ x ∈ encRound sum e k v, x < M32 := foldl_encStep_bounds sum e k _ v hv

theorem decRound_encRound (sum e : Nat) (k v : List Nat)
    (hlen : 2 ≤ v.length) (hv : ∀ x ∈ v, x < M32) :
    decRound sum e k (encRound sum e k v) = v := by
  unfold decRound encRound
  rw [foldl_encStep_length]
  exact foldr_foldl_steps sum e k (List.range v.length) v hlen
    (fun p hp => List.mem_range.mp hp) hv

end Crypt

namespace Crypt

/-- The sums used by the rounds of `encRounds k v s q`, in application
order. -/
def sumList (s q : Nat) : List Nat :=
  (List.range q).map (fun i => (s + (i + 1) * DELTA) % M32)

/-- One round as a function of its sum only (`e` recomputed as in the
source). -/
def roundEnc (k : List Nat) (w : List Nat) (t : Nat) : List Nat :=
  encRound t ((t >>> 2) &&& 3) k w

def roundDec (k : List Nat) (t : Nat) (w : List Nat) : List Nat :=
  decRound t ((t >>> 2) &&& 3) k w

theorem sumList_succ (s q : Nat) :
    sumList s (q + 1) = ((s + DELTA) % M32) :: sumList ((s + DELTA) % M32) q := by
  unfold sumList
  rw [List.range_succ_eq_map, List.map_cons, List.map_map]
  have h1 : (s + (0 + 1) * DELTA) % M32 = (s + DELTA) % M32 := by
    norm_num
  have h2 : List.map ((fun i => (s + (i + 1) * DELTA) % M32) ∘ Nat.succ) (List.range q) =
      List.map (fun i => ((s + DELTA) % M32 + (i + 1) * DELTA) % M32) (List.range q) := by
    apply List.map_congr_left
    intro i _
    simp only [Function.comp]
    rw [Nat.mod_add_mod]
    have : s + DELTA + (i + 1) * DELTA = s + (Nat.succ i + 1) * DELTA := by
      simp [Nat.succ_eq_add_one]
      ring
    rw [this]
  rw [h2]
  rw [h1]

theorem encRounds_eq_foldl (k : List Nat) :
    ∀ (q : Nat) (v : List Nat) (s : Nat),
      encRounds k v s q = (sumList s q).foldl (roundEnc k) v := by
  intro q
  induction q with
  | zero => intro v s; rfl
  | succ q ih =>
    intro v s
    rw [sumList_succ, List.foldl_cons]
    show encRounds k (encRound ((s + DELTA) % M32) ((((s + DELTA) % M32) >>> 2) &&& 3) k v)
      ((s + DELTA) % M32) q = _
    rw [ih]
    rfl

end Crypt

namespace Crypt

/-- Run `q` decryption rounds with sums `q*DELTA, ..., 2*DELTA, DELTA`
(each mod 2^32), the order the source's `while` loop uses. -/
def decSumsRun (k : List Nat) : Nat → List Nat → List Nat
  | 0, v => v
  | Nat.succ m, v => decSumsRun k m (roundDec k (((m + 1) * DELTA) % M32) v)

theorem coprime_M32_DELTA : Nat.gcd M32 DELTA = 1 := by decide

theorem mul_delta_mod_ne_zero (m : Nat) (h0 : 0 < m) (hm : m < M32) :
    (m * DELTA) % M32 ≠ 0 := by
  intro h
  have hdvd : M32 ∣ m * DELTA := Nat.dvd_of_mod_eq_zero h
  have hco : Nat.Coprime M32 DELTA := coprime_M32_DELTA
  have : M32 ∣ m := hco.dvd_of_dvd_mul_right hdvd
  have := Nat.le_of_dvd h0 this
  omega

theorem sumList_snoc (s q : Nat) :
    sumList s (q + 1) = sumList s q ++ [(s + (q + 1) * DELTA) % M32] := by
  unfold sumList
  rw [List.range_succ, List.map_append]
  rfl

theorem decWhile_eq (k : List Nat) :
    ∀ (q fuel : Nat) (v : List Nat), q ≤ fuel → q < M32 →
      decWhile k fuel v ((q * DELTA) % M32) = decSumsRun k q v := by
  intro q
  induction q with
  | zero =>
    intro fuel v _ _
    cases fuel with
    | zero => rfl
    | succ f => simp [decWhile, decSumsRun]
  | succ q ih =>
    intro fuel v hq hlt
    cases fuel with
    | zero => omega
    | succ f =>
      have hne : ((q + 1) * DELTA) % M32 ≠ 0 := mul_delta_mod_ne_zero _ (by omega) hlt
      show decWhile k (f + 1) v (((q + 1) * DELTA) % M32) = _
      rw [decWhile, if_neg hne]
      have hsum : (((q + 1) * DELTA) % M32 + (M32 - DELTA)) % M32 = (q * DELTA) % M32 := by
        rw [Nat.mod_add_mod]
        have h1 : (q + 1) * DELTA + (M32 - DELTA) = q * DELTA + M32 := by
          have : DELTA ≤ M32 := by norm_num [DELTA, M32]
          have h2 : (q + 1) * DELTA = q * DELTA + DELTA := by ring
          omega
        rw [h1, Nat.add_mod_right]
      rw [hsum, ih f _ (by omega) (by omega)]
      rfl

theorem decSumsRun_eq_foldr (k : List Nat) :
    ∀ (q : Nat) (v : List Nat), decSumsRun k q v = (sumList 0 q).foldr (roundDec k) v := by
  intro q
  induction q with
  | zero => intro v; rfl
  | succ q ih =>
    intro v
    rw [decSumsRun, ih, sumList_snoc, List.foldr_append]
    have : (0 + (q + 1) * DELTA) % M32 = ((q + 1) * DELTA) % M32 := by rw [Nat.zero_add]
    rw [this]
    rfl

theorem foldl_roundEnc_length (k : List Nat) :
    ∀ (L : List Nat) (v : List Nat), (L.foldl (roundEnc k) v).length = v.length := by
  intro L
  induction L with
  | nil => intro v; rfl
  | cons t ts ih =>
    intro v
    rw [List.foldl_cons, ih]
    exact encRound_length _ _ k v

theorem foldl_roundEnc_bounds (k : List Nat) :
    ∀ (L : List Nat) (v : List Nat), (∀ x ∈ v, x < M32) →
      ∀ x ∈ L.foldl (roundEnc k) v, x < M32 := by
  intro L
  induction L with
  | nil => intro v hv; exact hv
  | cons t ts ih =>
    intro v hv
    exact ih _ (encRound_bounds _ _ k v hv)

theorem foldr_foldl_rounds (k : List Nat) :
    ∀ (L : List Nat) (v : List Nat), 2 ≤ v.length → (∀ x ∈ v, x < M32) →
      L.foldr (roundDec k) (L.foldl (roundEnc k) v) = v := by
  intro L
  induction L with
  | nil => intro v _ _; rfl
  | cons t ts ih =>
    intro v hlen hv
    rw [List.foldl_cons, List.foldr_cons]
    rw [ih (roundEnc k v t) (by rw [show (roundEnc k v t).length = v.length from encRound_length _ _ k v]; exact hlen)
      (encRound_bounds _ _ k v hv)]
    exact decRound_encRound _ _ k v hlen hv

theorem encryptUint32Array_length (v k : List Nat) :
    (encryptUint32Array v k).length = v.length := by
  unfold encryptUint32Array
  rw [encRounds_eq_foldl, foldl_roundEnc_length]

theorem roundCount_le (n : Nat) : roundCount n ≤ 68 := by
  unfold roundCount
  split
  · omega
  · have : 52 / n ≤ 52 := Nat.div_le_self _ _
    omega

/-- The cipher core is an involution pair: decryption undoes encryption
for every message of at least two 32-bit words and any key array. -/
theorem decryptUint32Array_encryptUint32Array (v k : List Nat)
    (hlen : 2 ≤ v.length) (hv : ∀ x ∈ v, x < M32) :
    decryptUint32Array (encryptUint32Array v k) k = v := by
  unfold decryptUint32Array
  rw [encryptUint32Array_length]
  have hq : roundCount v.length < M32 := by
    have := roundCount_le v.length
    norm_num [M32]
    omega
  rw [decWhile_eq k (roundCount v.length) M32 _ (le_of_lt hq) hq,
    decSumsRun_eq_foldr]
  unfold encryptUint32Array
  rw [encRounds_eq_foldl]
  exact foldr_foldl_rounds k _ v hlen hv

end Crypt

namespace Crypt

theorem sign_eq_append (s tag : List Nat) (h : tag.length = 4) : sign s tag = tag ++ s := by
  unfold sign
  rw [h]
  simp [List.take_of_length_le (le_of_eq h)]

theorem checkSign_append (s tag : List Nat) (h : tag.length = 4) :
    checkSign (tag ++ s) tag = s := by
  unfold checkSign
  have hmm : signMismatch (tag ++ s) tag = false := by
    unfold signMismatch
    rw [List.any_eq_false]
    intro i hi
    rw [List.mem_range] at hi
    rw [List.get?_eq_getElem?, List.getElem?_append_left (by omega)]
    simp [List.getD_eq_getElem?_getD, List.getElem?_eq_getElem (show i < tag.length by omega)]
  rw [hmm]
  simp only [Bool.false_eq_true, if_false]
  rw [← h]
  exact List.drop_left tag s

theorem checkSign_sign (s tag : List Nat) (h : tag.length = 4) :
    checkSign (sign s tag) tag = s := by
  rw [sign_eq_append s tag h]
  exact checkSign_append s tag h

theorem packPairs_bounds (m : Str) (hm : ∀ u ∈ m, u < 65536) :
    ∀ w ∈ packPairs m, w < M32 := by
  induction m using packPairs.induct with
  | case1 a b t ih =>
    intro w hw
    rw [packPairs] at hw
    rcases List.mem_cons.mp hw with h | h
    · rw [h]
      exact pack_lt a b (hm a (by simp)) (hm b (by simp))
    · exact ih (fun u hu => hm u (by simp [hu])) w h
  | case2 a =>
    intro w hw
    rw [packPairs] at hw
    rcases List.mem_cons.mp hw with h | h
    · rw [h]
      exact pack_lt a 0 (hm a (by simp)) (by norm_num)
    · simp at h
  | case3 =>
    intro w hw
    simp [packPairs] at hw

theorem unpackAll_packPairs (m : Str) (heven : m.length % 2 = 0)
    (hm : ∀ u ∈ m, u < 65536) : unpackAll (packPairs m) = m := by
  induction m using packPairs.induct with
  | case1 a b t ih =>
    rw [packPairs, unpackAll]
    rw [unpack_hi a b (hm a (by simp)) (hm b (by simp)),
      unpack_lo a b (hm b (by simp))]
    rw [ih (by simp only [List.length_cons] at heven; omega) (fun u hu => hm u (by simp [hu]))]
  | case2 a => simp at heven
  | case3 => rfl

end Crypt

namespace Crypt

theorem packPairs_ne_nil (m : Str) (h : m ≠ []) : packPairs m ≠ [] := by
  match m with
  | a :: b :: t => rw [packPairs]; simp
  | [a] => rw [packPairs]; simp

theorem uint32ArrayToString_cons (w : Nat) (pt : List Nat) (h : pt ≠ []) :
    uint32ArrayToString (w :: pt) =
      ((w >>> 16) &&& 0xFFFF) :: (w &&& 0xFFFF) :: uint32ArrayToString pt := by
  cases hpt : pt.getLast? with
  | none => exact absurd (List.getLast?_eq_none_iff.mp hpt) h
  | some last =>
    unfold uint32ArrayToString
    rw [List.getLast?_cons, hpt, List.dropLast_cons_of_ne_nil h]
    simp only [Option.getD_some]
    rw [unpackAll]
    simp

theorem uint32ArrayToString_packPairs (m : Str) (heven : m.length % 2 = 0)
    (hm : ∀ u ∈ m, u < 65536) :
    uint32ArrayToString (packPairs m) =
      if m.getLast? = some 32 then m.dropLast else m := by
  induction m using packPairs.induct with
  | case3 => rfl
  | case2 a => simp at heven
  | case1 a b t ih =>
    cases t with
    | nil =>
      rw [packPairs, packPairs]
      unfold uint32ArrayToString
      simp only [List.getLast?_cons, List.getLast?_nil, Option.getD_none]
      rw [unpack_hi a b (hm a (by simp)) (hm b (by simp)),
        unpack_lo a b (hm b (by simp))]
      by_cases hb : b = 32
      · subst hb; simp [unpackAll]
      · simp [unpackAll, hb]
    | cons c t2 =>
      rw [packPairs]
      rw [uint32ArrayToString_cons _ _ (packPairs_ne_nil _ (by simp))]
      rw [unpack_hi a b (hm a (by simp)) (hm b (by simp)),
        unpack_lo a b (hm b (by simp))]
      rw [ih (by simp only [List.length_cons] at heven ⊢; omega)
        (fun u hu => hm u (by simp [hu]))]
      rw [List.getLast?_cons_cons]
      have hd : (a :: b :: c :: t2).dropLast = a :: b :: (c :: t2).dropLast := by
        rw [List.dropLast_cons_of_ne_nil (by simp), List.dropLast_cons_of_ne_nil (by simp)]
      rw [List.getLast?_cons_cons]
      by_cases hl : (c :: t2).getLast? = some 32
      · simp only [hl, if_true, hd]
      · simp only [hl, if_false]

end Crypt

namespace Crypt

/-- Range of the code points `safeShift` can produce from a 16-bit
unit: printable BMP non-surrogates, or the shifted ranges up to
0x1081F. -/
def shiftedOk (c : Nat) : Prop :=
  (32 ≤ c ∧ c < 0x10000 ∧ ¬(0xD800 ≤ c ∧ c ≤ 0xDFFF)) ∨ (0x10000 ≤ c ∧ c ≤ 0x1081F)

theorem safeShift_ok (u : Nat) (hu : u < 65536) : shiftedOk (safeShift u) := by
  unfold safeShift shiftedOk
  split_ifs with h1 h2
  · right; omega
  · right; omega
  · left; omega

theorem unshift_safeShift (u : Nat) (hu : u < 65536) : unshiftSafe (safeShift u) = u := by
  unfold safeShift unshiftSafe
  split_ifs <;> omega

theorem fromCodePoint_length_pos (c : Nat) : 1 ≤ (fromCodePoint c).length := by
  unfold fromCodePoint
  split <;> simp

theorem readCodePoint_cons_cons (u u2 : Nat) (t2 : Str) :
    readCodePoint (u :: u2 :: t2) =
      if 0xD800 ≤ u ∧ u < 0xDC00 then
        (if 0xDC00 ≤ u2 ∧ u2 < 0xE000 then
          (0x10000 + (u - 0xD800) * 0x400 + (u2 - 0xDC00), t2)
        else (u, u2 :: t2))
      else (u, u2 :: t2) := rfl

theorem readCodePoint_single (u : Nat) : readCodePoint [u] = (u, []) := by
  show (if 0xD800 ≤ u ∧ u < 0xDC00 then (u, ([] : Str)) else (u, [])) = (u, [])
  rw [ite_self]

theorem readCodePoint_not_high (u : Nat) (t : Str) (h : ¬(0xD800 ≤ u ∧ u < 0xDC00)) :
    readCodePoint (u :: t) = (u, t) := by
  cases t with
  | nil => exact readCodePoint_single u
  | cons u2 t2 => rw [readCodePoint_cons_cons, if_neg h]

theorem readCodePoint_encoded (c : Nat) (t : Str) (hc : shiftedOk c) :
    readCodePoint (fromCodePoint c ++ t) = (c, t) := by
  unfold fromCodePoint
  rcases hc with ⟨h32, hlt, hns⟩ | ⟨hlo, hhi⟩
  · rw [if_pos hlt, List.cons_append, List.nil_append]
    exact readCodePoint_not_high c t (by omega)
  · rw [if_neg (by omega), List.cons_append, List.cons_append, List.nil_append]
    have hdiv := Nat.div_add_mod (c - 0x10000) 0x400
    have hmod : (c - 0x10000) % 0x400 < 0x400 := Nat.mod_lt _ (by norm_num)
    have hdle : (c - 0x10000) / 0x400 ≤ 2 := by omega
    rw [readCodePoint_cons_cons, if_pos (by omega), if_pos (by omega)]
    have heq : 0x10000 + (0xD800 + (c - 0x10000) / 0x400 - 0xD800) * 0x400 +
        (0xDC00 + (c - 0x10000) % 0x400 - 0xDC00) = c := by
      have h1 : 0xD800 + (c - 0x10000) / 0x400 - 0xD800 = (c - 0x10000) / 0x400 := by omega
      have h2 : 0xDC00 + (c - 0x10000) % 0x400 - 0xDC00 = (c - 0x10000) % 0x400 := by omega
      rw [h1, h2]
      omega
    rw [heq]

theorem safeDecodeLoop_enc (d : List Nat) :
    ∀ fuel, (uint32ArrayToSafeString d).length ≤ fuel → (∀ w ∈ d, w < M32) →
      safeDecodeLoop fuel (uint32ArrayToSafeString d) = d := by
  induction d with
  | nil => intro fuel _ _; cases fuel <;> rfl
  | cons w t ih =>
    intro fuel hfuel hb
    have hw : w < M32 := hb w (by simp)
    have hhi : (w >>> 16) &&& 0xFFFF < 65536 :=
      Nat.and_lt_two_pow _ (show (0xFFFF:Nat) < 2 ^ 16 by norm_num)
    have hlo : w &&& 0xFFFF < 65536 :=
      Nat.and_lt_two_pow _ (show (0xFFFF:Nat) < 2 ^ 16 by norm_num)
    have hlenhi := fromCodePoint_length_pos (safeShift ((w >>> 16) &&& 0xFFFF))
    have hlenlo := fromCodePoint_length_pos (safeShift (w &&& 0xFFFF))
    rw [uint32ArrayToSafeString] at hfuel ⊢
    rw [List.length_append, List.length_append] at hfuel
    rcases hfc : fromCodePoint (safeShift ((w >>> 16) &&& 0xFFFF)) with _ | ⟨u, us⟩
    · rw [hfc] at hlenhi
      simp at hlenhi
    cases fuel with
    | zero => omega
    | succ f =>
      have hus : us.length + 1 = (fromCodePoint (safeShift ((w >>> 16) &&& 0xFFFF))).length := by
        rw [hfc]
        simp
      have h1 : readCodePoint (u :: ((us ++ fromCodePoint (safeShift (w &&& 0xFFFF))) ++
          uint32ArrayToSafeString t)) =
          (safeShift ((w >>> 16) &&& 0xFFFF),
            fromCodePoint (safeShift (w &&& 0xFFFF)) ++ uint32ArrayToSafeString t) := by
        have hrw : u :: ((us ++ fromCodePoint (safeShift (w &&& 0xFFFF))) ++
            uint32ArrayToSafeString t) =
            fromCodePoint (safeShift ((w >>> 16) &&& 0xFFFF)) ++
              (fromCodePoint (safeShift (w &&& 0xFFFF)) ++ uint32ArrayToSafeString t) := by
          rw [hfc]
          simp [List.append_assoc]
        rw [hrw]
        exact readCodePoint_encoded _ _ (safeShift_ok _ hhi)
      have h2 : readCodePoint (fromCodePoint (safeShift (w &&& 0xFFFF)) ++
          uint32ArrayToSafeString t) =
          (safeShift (w &&& 0xFFFF), uint32ArrayToSafeString t) :=
        readCodePoint_encoded _ _ (safeShift_ok _ hlo)
      simp only [safeDecodeLoop, List.append_eq, h1, h2]
      rw [unshift_safeShift _ hhi, unshift_safeShift _ hlo, repack w hw]
      rw [ih f (by omega) (fun x hx => hb x (by simp [hx]))]

/-- The safe-string transport encoding round-trips every array of
32-bit words. -/
theorem safe_roundtrip (d : List Nat) (hb : ∀ w ∈ d, w < M32) :
    safeStringToUint32Array (uint32ArrayToSafeString d) = d :=
  safeDecodeLoop_enc d _ le_rfl hb

end Crypt

namespace Crypt

theorem toUint32_lt (o : Option Nat) : toUint32 o < M32 := by
  unfold toUint32
  match o with
  | none => norm_num [M32]
  | some v => exact Nat.mod_lt _ (by norm_num [M32])

theorem hexStringToUint32Array_length (s : Str) :
    (hexStringToUint32Array s).length = s.length >>> 3 := by
  unfold hexStringToUint32Array
  simp

theorem hexStringToUint32Array_bounds (s : Str) :
    ∀ w ∈ hexStringToUint32Array s, w < M32 := by
  intro w hw
  unfold hexStringToUint32Array at hw
  rcases List.mem_map.mp hw with ⟨i, _, rfl⟩
  exact toUint32_lt _

theorem encryptUint32Array_bounds (v k : List Nat) (hv : ∀ x ∈ v, x < M32) :
    ∀ x ∈ encryptUint32Array v k, x < M32 := by
  unfold encryptUint32Array
  rw [encRounds_eq_foldl]
  exact foldl_roundEnc_bounds k _ v hv

theorem stringToUint32Array_even (m : Str) :
    (if m.length % 2 > 0 then m ++ [32] else m).length % 2 = 0 := by
  split
  · rename_i h
    rw [List.length_append]
    simp only [List.length_cons, List.length_nil]
    omega
  · rename_i h
    omega

theorem stringToUint32Array_units (m : Str) (hm : ∀ u ∈ m, u < 65536) :
    ∀ u ∈ (if m.length % 2 > 0 then m ++ [32] else m), u < 65536 := by
  split
  · intro u hu
    rcases List.mem_append.mp hu with h | h
    · exact hm u h
    · simp at h
      omega
  · exact hm

/-- Full round trip of the codec pipeline: decryption with the same
64-hex-digit key returns the original UTF-16 string, except that an
even-length message ending in the padding character `' '` (unit 32)
loses that final unit. -/
theorem decrypt_encrypt (m k : Str) (hm : ∀ u ∈ m, u < 65536) (hk : k.length = 64) :
    decrypt (encrypt m k) k =
      if m.length % 2 = 0 ∧ m.getLast? = some 32 then m.dropLast else m := by
  have hk2len : (hexStringToUint32Array k).length = 8 := by
    rw [hexStringToUint32Array_length, hk]
    decide
  have htag : ((hexStringToUint32Array k).drop 4).length = 4 := by
    rw [List.length_drop, hk2len]
  have htagb : ∀ x ∈ (hexStringToUint32Array k).drop 4, x < M32 :=
    fun x hx => hexStringToUint32Array_bounds k x (List.drop_subset _ _ hx)
  have hpunits := stringToUint32Array_units m hm
  have hpeven := stringToUint32Array_even m
  have hpackb := packPairs_bounds _ hpunits
  simp only [encrypt, decrypt]
  rw [sign_eq_append _ _ htag]
  have hvb : ∀ x ∈ (hexStringToUint32Array k).drop 4 ++
      stringToUint32Array m, x < M32 := by
    intro x hx
    rcases List.mem_append.mp hx with h | h
    · exact htagb x h
    · exact hpackb x h
  have hvlen : 2 ≤ ((hexStringToUint32Array k).drop 4 ++ stringToUint32Array m).length := by
    rw [List.length_append, htag]
    omega
  rw [safe_roundtrip _ (encryptUint32Array_bounds _ _ hvb),
    decryptUint32Array_encryptUint32Array _ _ hvlen hvb,
    checkSign_append _ _ htag]
  unfold stringToUint32Array
  rw [uint32ArrayToString_packPairs _ hpeven hpunits]
  by_cases hpar : m.length % 2 = 0
  · have : ¬ m.length % 2 > 0 := by omega
    rw [if_neg this]
    by_cases hlast : m.getLast? = some 32
    · rw [if_pos hlast, if_pos ⟨hpar, hlast⟩]
    · rw [if_neg hlast, if_neg (by intro h; exact hlast h.2)]
  · have hgt : m.length % 2 > 0 := by omega
    rw [if_pos hgt, List.getLast?_concat, if_pos rfl, List.dropLast_concat,
      if_neg (by intro h; exact hpar h.1)]

end Crypt

namespace Crypt

theorem decIterCount_eq :
    ∀ (q fuel : Nat), q ≤ fuel → q < M32 →
      decIterCount fuel ((q * DELTA) % M32) = q := by
  intro q
  induction q with
  | zero =>
    intro fuel _ _
    cases fuel with
    | zero => rfl
    | succ f => simp [decIterCount]
  | succ q ih =>
    intro fuel hq hlt
    cases fuel with
    | zero => omega
    | succ f =>
      have hne : ((q + 1) * DELTA) % M32 ≠ 0 := mul_delta_mod_ne_zero _ (by omega) hlt
      show decIterCount (f + 1) (((q + 1) * DELTA) % M32) = _
      rw [decIterCount, if_neg hne]
      have hsum : (((q + 1) * DELTA) % M32 + (M32 - DELTA)) % M32 = (q * DELTA) % M32 := by
        rw [Nat.mod_add_mod]
        have h1 : (q + 1) * DELTA + (M32 - DELTA) = q * DELTA + M32 := by
          have : DELTA ≤ M32 := by norm_num [DELTA, M32]
          have h2 : (q + 1) * DELTA = q * DELTA + DELTA := by ring
          omega
        rw [h1, Nat.add_mod_right]
      rw [hsum, ih f (by omega) (by omega)]

theorem roundCount_ge (n : Nat) (hn : 1 ≤ n) : 16 ≤ roundCount n := by
  unfold roundCount
  rw [if_neg (by omega)]
  exact Nat.le_add_right 16 _

theorem roundCount_ge17_iff (n : Nat) (hn : 1 ≤ n) : 17 ≤ roundCount n ↔ n ≤ 52 := by
  unfold roundCount
  rw [if_neg (by omega)]
  constructor
  · intro h
    have h1 : 1 ≤ 52 / n := by omega
    have := Nat.le_div_iff_mul_le (show 0 < n by omega) |>.mp h1
    omega
  · intro h
    have : 1 ≤ 52 / n := (Nat.le_div_iff_mul_le (show 0 < n by omega)).mpr (by omega)
    omega

end Crypt

/-- Claim C1, counterexample: the round trip is *not* the identity for
every UTF-16 string.  For the even-length message consisting of two
spaces (units `[32, 32]`) and the 64-hex-digit key `"0...01"`,
`decrypt(encrypt(M, K), K)` returns a single space: the decoder cannot
distinguish a real trailing space of an even-length message from the
odd-length padding space and strips it. -/
theorem claim_C1_counterexample :
    Crypt.decrypt (Crypt.encrypt [32, 32] (List.replicate 63 48 ++ [49]))
        (List.replicate 63 48 ++ [49]) = [32] ∧
      [32] ≠ [32, 32] := by
  constructor
  · decide
  · decide

/-- Claim C1 (amended): for every UTF-16-representable string M and
every 64-hex-digit key K, `decrypt(encrypt(M, K), K)` returns exactly
M, unless M has even length and ends with the space unit 32, in which
case that final space is stripped (it is indistinguishable from the
odd-length padding). -/
theorem claim_C1 (m k : Crypt.Str) (hm : ∀ u ∈ m, u < 65536)
    (hk : k.length = 64) (_hkhex : ∀ c ∈ k, (Crypt.hexVal c).isSome) :
    Crypt.decrypt (Crypt.encrypt m k) k =
      if m.length % 2 = 0 ∧ m.getLast? = some 32 then m.dropLast else m :=
  Crypt.decrypt_encrypt m k hm hk

/-- Concrete instance of `claim_C1`: the message "Hi" under the
all-zero key round-trips exactly. -/
theorem claim_C1_witness :
    Crypt.decrypt (Crypt.encrypt [72, 105] (List.replicate 64 48))
        (List.replicate 64 48) = [72, 105] := by
  have h := claim_C1 [72, 105] (List.replicate 64 48) (by decide) (by decide) (by decide)
  simpa using h

/-- Claim C4, counterexample: the round count is *not* at least 17 for
every message length.  A 53-word message gets
`floor(16 + 52/53) = 16` rounds, and the decryption loop likewise
iterates only 16 times. -/
theorem claim_C4_counterexample :
    Crypt.roundCount 53 = 16 ∧
      ¬ 17 ≤ Crypt.roundCount 53 ∧
      Crypt.decIterCount Crypt.M32 ((Crypt.roundCount 53 * Crypt.DELTA) % Crypt.M32) = 16 := by
  refine ⟨by decide, by decide, ?_⟩
  decide

/-- Claim C4 (amended): for every message word-length n ≥ 1 encryption
performs exactly `floor(16 + 52/n)` rounds (68 for n = 1) and the
decryption `while` loop performs the same number of iterations,
applying the rounds in reverse order with descending sums; the round
count is at least 16 for every n, and at least 17 exactly when
n ≤ 52. -/
theorem claim_C4 (n : Nat) (hn : 1 ≤ n) (v k : List Nat) (hv : v.length = n) :
    Crypt.encryptUint32Array v k = Crypt.encRounds k v 0 (Crypt.roundCount n) ∧
      Crypt.decIterCount Crypt.M32 ((Crypt.roundCount n * Crypt.DELTA) % Crypt.M32) =
        Crypt.roundCount n ∧
      Crypt.decryptUint32Array v k = Crypt.decSumsRun k (Crypt.roundCount n) v ∧
      16 ≤ Crypt.roundCount n ∧
      (17 ≤ Crypt.roundCount n ↔ n ≤ 52) ∧
      Crypt.roundCount 1 = 68 := by
  have hqlt : Crypt.roundCount n < Crypt.M32 := by
    have := Crypt.roundCount_le n
    norm_num [Crypt.M32]
    omega
  refine ⟨by rw [Crypt.encryptUint32Array, hv], ?_, ?_, Crypt.roundCount_ge n hn,
    Crypt.roundCount_ge17_iff n hn, by decide⟩
  · exact Crypt.decIterCount_eq _ _ (le_of_lt hqlt) hqlt
  · rw [Crypt.decryptUint32Array, hv]
    exact Crypt.decWhile_eq k _ _ _ (le_of_lt hqlt) hqlt

/-- Concrete instance of `claim_C4`: a 4-word message gets
`16 + 52/4 = 29` rounds in both directions. -/
theorem claim_C4_witness :
    Crypt.decIterCount Crypt.M32 ((Crypt.roundCount 4 * Crypt.DELTA) % Crypt.M32) =
        Crypt.roundCount 4 ∧
      16 ≤ Crypt.roundCount 4 :=
  ⟨(claim_C4 4 (by omega) [1, 2, 3, 4] [] (by decide)).2.1,
    (claim_C4 4 (by omega) [1, 2, 3, 4] [] (by decide)).2.2.2.1⟩

/-!
Embedding of `js_src/allianceManager.js`.  The payload type produced by
the host `JSON.parse` is abstract (`α`), with the host primitives the
code consumes on it (`JSON.parse` itself, the `keyExpireTime`/`room`
field reads, the `Object.keys(x).length === 0` emptiness test, and the
out-of-scope permission filtering) supplied as parameters in `Env`.
Persisting a record (`saveKeyData`, a `JSON.stringify` into the local
key segment) is modelled by reporting the written record itself.
-/

namespace Alliance

open Crypt (Str decrypt)

/-- Host resource-type constants; the repo only compares against
`RESOURCE_ENERGY`. -/
def RESOURCE_ENERGY : Nat := 0

/-- One entry of `Game.market.incomingTransactions` as the repo reads
it.  `sender` is `none` when the transaction has no sender object. -/
structure Transaction where
  time : Nat
  sender : Option Str
  resourceType : Nat
  amount : Nat
  description : Str
deriving DecidableEq

/-- The persisted key record `keyData`; JavaScript `null`/`undefined`
fields are collapsed to `none`. -/
structure KeyData where
  key : Option Str
  newKey : Option Str
  expire : Option Nat
  leaderRoom : Option Str
deriving DecidableEq

/-- The default record `{key: undefined, expire: null}` that
`readKeyFromLocalSegment` substitutes for an empty segment. -/
def emptyKeyData : KeyData :=
  { key := none, newKey := none, expire := none, leaderRoom := none }

/-- JS truthiness of an optional string: `undefined`, `null` and the
empty string are falsy. -/
def truthyStr : Option Str → Bool
  | none => false
  | some s => !s.isEmpty

/-- JS truthiness of an optional number: `undefined`, `null` and 0 are
falsy. -/
def truthyNat : Option Nat → Bool
  | none => false
  | some n => n != 0

/-- A terminal as `requestKey` sees it: `valid` is
`room.controller.my && room.terminal.my` (`getValidTerminal`), and
`sendOk` is whether `terminal.send(RESOURCE_ENERGY, 3, leaderRoom)`
would return `OK`. -/
structure Terminal where
  valid : Bool
  cooldown : Nat
  energy : Nat
  sendOk : Bool
deriving DecidableEq

/-- Host state `RawMemory.foreignSegment`: the settled foreign segment,
if any. -/
structure ForeignSeg where
  username : Str
  id : Nat
  data : Str
deriving DecidableEq

/-- State of a `ForeignSegmentProvider`: the single subscription slot
plus the cached data of the last successful read. -/
structure ProviderState (α : Type) where
  requestedPlayerName : Option Str
  requestedSegmentId : Option Nat
  dataRaw : Option Str
  data : Option α
deriving DecidableEq

/-- The host environment and payload interpretation visible to one
call.  `localKeySegment` is `RawMemory.segments[keySegmentId]`
(`none` = undefined/not loaded, `some none` = stored null/empty,
`some (some kd)` = a stored record, serialization abstracted);
`parse` is the host `JSON.parse` with `none` modelling a thrown
exception; `keyExpireTime`, `room` and `isEmptyObj` are the field
reads the code performs on parsed payloads; `applyPerm` is the
out-of-scope permission filter `applyPermissions(·, getAllyStatus ·)`
composed with the rank lookup. -/
structure Env (α : Type) where
  time : Nat
  foreignSegment : Option ForeignSeg
  localKeySegment : Option (Option KeyData)
  transactions : List Transaction
  terminals : List Terminal
  parse : Str → Option α
  keyExpireTime : α → Option Nat
  room : α → Option Str
  isEmptyObj : α → Bool
  applyPerm : Option α → Option α

/-- Result of `ForeignSegmentProvider.read`/`readSegment`: the source
multiplexes `undefined`, the `NEXT_TICK` symbol, the numeric error
code and the data in a single return slot. -/
inductive ReadResult (α : Type) where
  | nextTick
  | undef
  | jsonParseFailed
  | rawStr (s : Str)
  | obj (a : α)
deriving DecidableEq

/-- Whether a `readSegment` result carries data from the settled
foreign segment. -/
def ReadResult.isData : ReadResult α → Bool
  | .rawStr _ => true
  | .obj _ => true
  | _ => false

/-- `ForeignSegmentProvider.read` (allianceManager.js lines 62-79):
`undefined` unless the settled foreign segment matches the requested
player and id and has nonempty data; in raw mode the raw string is
returned and cached, otherwise the `JSON.parse` result (a thrown
parse exception is caught and converted to `ERR_JSON_PARSE_FAILED`,
leaving the cache untouched). -/
def read (parse : Str → Option α) (foreignSegment : Option ForeignSeg)
    (ps : ProviderState α) (raw : Bool) : ReadResult α × ProviderState α :=
  match foreignSegment with
  | none => (.undef, ps)
  | some f =>
    if some f.username ≠ ps.requestedPlayerName ∨ some f.id ≠ ps.requestedSegmentId ∨
        f.data = [] then
      (.undef, ps)
    else if raw then
      (.rawStr f.data, { ps with data := none, dataRaw := some f.data })
    else
      match parse f.data with
      | some a => (.obj a, { ps with data := some a, dataRaw := some f.data })
      | none => (.jsonParseFailed, ps)

/-- `ForeignSegmentProvider.requestSegment` (lines 85-91): retarget the
single subscription slot, drop the cached data and declare the new
active foreign segment to the host. -/
def requestSegment (_ps : ProviderState α) (playerName : Str) (segmentId : Nat) :
    ProviderState α :=
  { requestedPlayerName := some playerName, requestedSegmentId := some segmentId,
    dataRaw := none, data := none }

/-- `ForeignSegmentProvider.readSegment` (lines 99-108): a call whose
target differs from the active subscription retargets and returns
`NEXT_TICK`; otherwise it reads. -/
def readSegment (parse : Str → Option α) (foreignSegment : Option ForeignSeg)
    (ps : ProviderState α) (playerName : Str) (segmentId : Nat) (raw : Bool) :
    ReadResult α × ProviderState α :=
  if ps.requestedPlayerName ≠ some playerName ∨ ps.requestedSegmentId ≠ some segmentId then
    (.nextTick, requestSegment ps playerName segmentId)
  else
    read parse foreignSegment ps raw

/-- Result of `readEncryptedSegment`. -/
inductive EncResult (α : Type) where
  | nextTick
  | undef
  | errJsonParseFailed
  | errDecryptionFailed
  | emptyObj
  | value (a : α)
deriving DecidableEq

/-- `ForeignSegmentProvider.readEncryptedSegment` (lines 142-160).
An empty settled string yields `{}` (`emptyObj`); pending/undefined
pass through; otherwise the raw string is decrypted and classified as
`ERR_DECRYPTION_FAILED` exactly when the first character of the
plaintext is not `'{'` (unit 0x7B), and as `ERR_JSON_PARSE_FAILED`
when `JSON.parse` then throws.  In raw mode `readSegment` cannot
produce `jsonParseFailed`/`obj`; those cases are mapped through for
totality only. -/
def readEncryptedSegment (parse : Str → Option α) (foreignSegment : Option ForeignSeg)
    (ps : ProviderState α) (playerName : Str) (segmentId : Nat) (key : Str) :
    EncResult α × ProviderState α :=
  match readSegment parse foreignSegment ps playerName segmentId true with
  | (.rawStr s, ps1) =>
    if s = [] then (.emptyObj, ps1)
    else if (decrypt s key).head? ≠ some 0x7B then (.errDecryptionFailed, ps1)
    else
      match parse (decrypt s key) with
      | some a => (.value a, ps1)
      | none => (.errJsonParseFailed, ps1)
  | (.nextTick, ps1) => (.nextTick, ps1)
  | (.undef, ps1) => (.undef, ps1)
  | (.jsonParseFailed, ps1) => (.errJsonParseFailed, ps1)
  | (.obj a, ps1) => (.value a, ps1)

end Alliance

namespace Alliance

open Crypt (Str decrypt)

/-- Constructor options of `AllianceDataSync` (lines 174-190). -/
structure SyncConfig where
  leaderPlayerName : Str
  keySegmentId : Nat
  segmentId : Nat
  dataSegmentId : Nat
  interval : Nat
deriving DecidableEq

/-- `AllianceDataSync.readKeyFromTransactions` (lines 214-242): walk
the incoming transactions newest first, stopping at the first entry
older than 1000 ticks or after 30 entries; a transfer from the leader
of exactly 3 energy delivers a replacement key when its description
has 66 characters (the last 64 of them) and a direct key when it has
exactly 64; the record is persisted on a hit and scanning stops. -/
def readKeyFromTransactions (leader : Str) (time : Nat) (kd : KeyData) :
    List Transaction → Nat → Bool × KeyData
  | [], _ => (false, kd)
  | tx :: rest, i =>
    if time > tx.time + 1000 then (false, kd)
    else
      if tx.sender = some leader ∧ tx.resourceType = RESOURCE_ENERGY ∧ tx.amount = 3 ∧
          tx.description.length = 66 then
        (true, { kd with newKey := some (tx.description.drop 2) })
      else if tx.sender = some leader ∧ tx.resourceType = RESOURCE_ENERGY ∧ tx.amount = 3 ∧
          tx.description.length = 64 then
        (true, { kd with key := some tx.description })
      else if i + 1 ≥ 30 then (false, kd)
      else readKeyFromTransactions leader time kd rest (i + 1)

/-- Output of `updateExpiredKey`: whether the transition fired, the
resulting record, whether `onKeyChanged` ran, whether `saveKeyData`
ran. -/
structure ExpiryOut where
  fired : Bool
  kd : KeyData
  notified : Bool
  saved : Bool
deriving DecidableEq

/-- `AllianceDataSync.updateExpiredKey` (lines 307-319): only a record
whose `key` and `expire` are both truthy transitions, and only once the
current tick reaches `expire`; then `key := newKey` (possibly
undefined), `newKey` and `expire` are cleared, the record is saved and
`onKeyChanged` fires exactly when the resulting key is truthy. -/
def updateExpiredKey (kd : KeyData) (time : Nat) : ExpiryOut :=
  if truthyStr kd.key ∧ truthyNat kd.expire ∧ time ≥ kd.expire.getD 0 then
    let kd1 : KeyData :=
      { key := kd.newKey, newKey := none, expire := none, leaderRoom := kd.leaderRoom }
    { fired := true, kd := kd1, notified := truthyStr kd1.key, saved := true }
  else
    { fired := false, kd := kd, notified := false, saved := false }

/-- `AllianceDataSync.setKeyData` (lines 287-297): update and save
`expire`/`leaderRoom` only when one of them changed. -/
def setKeyData (kd : KeyData) (expire : Option Nat) (leaderRoom : Option Str) :
    KeyData × Bool :=
  if expire = kd.expire ∧ leaderRoom = kd.leaderRoom then (kd, false)
  else ({ kd with expire := expire, leaderRoom := leaderRoom }, true)

/-- Result slot of `requestKey`: `NEXT_TICK` or `undefined`. -/
inductive ReqResult where
  | nextTick
  | undef
deriving DecidableEq

/-- Output of `requestKey`, with effect flags: whether the transaction
ledger was scanned, whether the tagged 3-energy transfer was sent, and
whether the key record was persisted. -/
structure ReqOut where
  result : ReqResult
  kd : KeyData
  scannedTransactions : Bool
  sentRequest : Bool
  saved : Bool
deriving DecidableEq

/-- `AllianceDataSync.requestKey` (lines 332-363): with a truthy
pending `newKey` it returns `undefined` immediately — no ledger scan,
no transfer.  Otherwise it scans the ledger (persisting a found key
and reporting `NEXT_TICK`); without a configured leader room it logs
and reports `NEXT_TICK`; otherwise it sends the 3-energy recognition
transfer from the first valid terminal with no cooldown and at least
10 energy whose send succeeds, reporting `NEXT_TICK` only when no
valid terminal exists at all (and `undefined` otherwise). -/
def requestKey (cfg : SyncConfig) (env : Env α) (kd : KeyData) : ReqOut :=
  if truthyStr kd.newKey then
    { result := .undef, kd := kd, scannedTransactions := false, sentRequest := false,
      saved := false }
  else
    match readKeyFromTransactions cfg.leaderPlayerName env.time kd env.transactions 0 with
    | (true, kd1) =>
      { result := .nextTick, kd := kd1, scannedTransactions := true, sentRequest := false,
        saved := true }
    | (false, _) =>
      if ¬ truthyStr kd.leaderRoom then
        { result := .nextTick, kd := kd, scannedTransactions := true, sentRequest := false,
          saved := false }
      else if env.terminals.any (fun t => t.valid) then
        { result := .undef, kd := kd, scannedTransactions := true,
          sentRequest := env.terminals.any
            (fun t => t.valid && t.cooldown == 0 && 10 ≤ t.energy && t.sendOk),
          saved := false }
      else
        { result := .nextTick, kd := kd, scannedTransactions := true, sentRequest := false,
          saved := false }

/-- Result of `syncMember`: `NEXT_TICK`, `undefined`, or the leader
data (the `{}` of an empty settled segment, or a parsed payload). -/
inductive SMResult (α : Type) where
  | nextTick
  | undef
  | emptyObj
  | value (a : α)
deriving DecidableEq

/-- The state `syncMember` reads and writes: the loaded key record (or
`none` before the local key segment settles) and the foreign-segment
provider. -/
structure SyncState (α : Type) where
  keyData : Option KeyData
  provider : ProviderState α
deriving DecidableEq

/-- Output of `syncMember`: result, new state, the key record written
by `saveKeyData` during the call (if any), and the `requestKey` effect
flags. -/
structure SMOut (α : Type) where
  result : SMResult α
  keyData : Option KeyData
  provider : ProviderState α
  savedKeyData : Option KeyData
  scannedTransactions : Bool
  sentRequest : Bool
deriving DecidableEq

/-- `AllianceDataSync.syncMember` (lines 401-443), composed from the
pieces above.  The decryption-failed branch replaces the whole record
with `{ key: undefined, leaderRoom: <kept>, expire: null }` — the
`newKey` field is absent from that object literal, i.e. cleared. -/
def syncMember (cfg : SyncConfig) (env : Env α) (st : SyncState α) : SMOut α :=
  let loaded : Option KeyData :=
    match st.keyData with
    | some kd => some kd
    | none =>
      match env.localKeySegment with
      | none => none
      | some stored => some (stored.getD emptyKeyData)
  match loaded with
  | none =>
    { result := .nextTick, keyData := none, provider := st.provider, savedKeyData := none,
      scannedTransactions := false, sentRequest := false }
  | some kd =>
    let ex := updateExpiredKey kd env.time
    if ex.fired then
      { result := .nextTick, keyData := some ex.kd, provider := st.provider,
        savedKeyData := some ex.kd, scannedTransactions := false, sentRequest := false }
    else if ¬ truthyStr kd.key ∨ (truthyNat kd.expire ∧ env.time ≥ kd.expire.getD 0 - 1000) then
      let rq := requestKey cfg env kd
      { result := match rq.result with | .nextTick => .nextTick | .undef => .undef,
        keyData := some rq.kd, provider := st.provider,
        savedKeyData := if rq.saved then some rq.kd else none,
        scannedTransactions := rq.scannedTransactions, sentRequest := rq.sentRequest }
    else
      let useNewKey : Bool := truthyStr kd.newKey && ! truthyNat kd.expire
      let pollKey : Str := if useNewKey then kd.newKey.getD [] else kd.key.getD []
      match readEncryptedSegment env.parse env.foreignSegment st.provider
          cfg.leaderPlayerName cfg.segmentId pollKey with
      | (.nextTick, ps1) =>
        { result := .nextTick, keyData := some kd, provider := ps1, savedKeyData := none,
          scannedTransactions := false, sentRequest := false }
      | (.undef, ps1) =>
        { result := .nextTick, keyData := some kd, provider := ps1, savedKeyData := none,
          scannedTransactions := false, sentRequest := false }
      | (.errJsonParseFailed, ps1) =>
        { result := .undef, keyData := some kd, provider := ps1, savedKeyData := none,
          scannedTransactions := false, sentRequest := false }
      | (.errDecryptionFailed, ps1) =>
        if useNewKey then
          { result := .undef, keyData := some kd, provider := ps1, savedKeyData := none,
            scannedTransactions := false, sentRequest := false }
        else
          let kd1 : KeyData :=
            { key := none, newKey := none, expire := none, leaderRoom := kd.leaderRoom }
          { result := .nextTick, keyData := some kd1, provider := ps1,
            savedKeyData := some kd1, scannedTransactions := false, sentRequest := false }
      | (.emptyObj, ps1) =>
        { result := .emptyObj, keyData := some kd, provider := ps1, savedKeyData := none,
          scannedTransactions := false, sentRequest := false }
      | (.value a, ps1) =>
        if truthyNat (env.keyExpireTime a) ∨ truthyStr (env.room a) then
          let upd := setKeyData kd
            (if truthyNat (env.keyExpireTime a) then env.keyExpireTime a else none)
            (env.room a)
          { result := .value a, keyData := some upd.1, provider := ps1,
            savedKeyData := if upd.2 then some upd.1 else none,
            scannedTransactions := false, sentRequest := false }
        else
          { result := .value a, keyData := some kd, provider := ps1, savedKeyData := none,
            scannedTransactions := false, sentRequest := false }

/-- State after n repeated `syncMember` calls (one per tick), call t
seeing environment `envs t`. -/
def syncMemberRec (cfg : SyncConfig) (envs : Nat → Env α) (st : SyncState α) :
    Nat → SyncState α
  | 0 => st
  | Nat.succ n =>
    let o := syncMember cfg (envs n) (syncMemberRec cfg envs st n)
    { keyData := o.keyData, provider := o.provider }

end Alliance

namespace Alliance

open Crypt (Str decrypt)

/-- Result of `readAllyData`: pending, absent, or a payload.  The
numeric error codes of `readEncryptedSegment` cannot surface here: the
source filters first with `!data` (false for the truthy numbers) and
then with `Object.keys(data).length === 0`, which is 0 for a number,
so both error codes collapse to `undefined`. -/
inductive AllyRes (α : Type) where
  | nextTick
  | undef
  | value (a : α)
deriving DecidableEq

/-- `AllianceDataSync.readAllyData` (lines 381-396). -/
def readAllyData (cfg : SyncConfig) (env : Env α) (kd : KeyData) (ps : ProviderState α)
    (playerName : Str) : AllyRes α × ProviderState α :=
  if ¬ truthyStr kd.key then (.undef, ps)
  else
    match readEncryptedSegment env.parse env.foreignSegment ps playerName cfg.dataSegmentId
        (kd.key.getD []) with
    | (.nextTick, ps1) => (.nextTick, ps1)
    | (.undef, ps1) => (.undef, ps1)
    | (.errJsonParseFailed, ps1) => (.undef, ps1)
    | (.errDecryptionFailed, ps1) => (.undef, ps1)
    | (.emptyObj, ps1) => (.undef, ps1)
    | (.value a, ps1) => if env.isEmptyObj a then (.undef, ps1) else (.value a, ps1)

/-- Replace (or add) one entry of the `alliesData` map, modelled as an
association list. -/
def setAssoc (l : List (Str × Option α)) (k : Str) (v : Option α) : List (Str × Option α) :=
  if l.any (fun e => e.1 = k) then l.map (fun e => if e.1 = k then (k, v) else e)
  else l ++ [(k, v)]

/-- The round-robin state of `AllianceManager.syncAlliesData`:
`syncDataIndex`/`syncDataAllies` as set by `updateSyncDataAllies`,
the `nextDataSync` gate (undefined before the first pass), and the
per-peer data cache. -/
structure RRState (α : Type) where
  syncDataIndex : Nat
  syncDataAllies : List Str
  nextDataSync : Option Nat
  alliesData : List (Str × Option α)
deriving DecidableEq

/-- The interval gate `Game.time < this.nextDataSync` of
`syncAlliesData` (false while `nextDataSync` is still undefined). -/
def rrGated (rr : RRState α) (time : Nat) : Bool :=
  match rr.nextDataSync with
  | some t => time < t
  | none => false

/-- `AllianceManager.syncAlliesData` (lines 676-702): when the
interval gate passes (`Game.time < this.nextDataSync` is false, in
particular while `nextDataSync` is still undefined), poll the peer
under the cursor; a pending (`NEXT_TICK`) result changes nothing
else; otherwise cache the (permission-filtered) payload, advance the
cursor circularly (wrapping to 0 after the last peer), and re-arm the
gate when the result was defined or a full pass just completed.
Returns the new state, the new provider state, and the polled peer
(`none` when gated).  The source's `ERR_DECRYPTION_FAILED` log branch
is unreachable (see `AllyRes`) and has no state effect. -/
def syncAlliesData (cfg : SyncConfig) (interval : Nat) (env : Env α) (kd : KeyData)
    (rr : RRState α) (ps : ProviderState α) :
    RRState α × ProviderState α × Option Str :=
  if rrGated rr env.time then (rr, ps, none)
  else
    let playerName := rr.syncDataAllies.getD rr.syncDataIndex []
    match readAllyData cfg env kd ps playerName with
    | (.nextTick, ps1) => (rr, ps1, some playerName)
    | (.undef, ps1) =>
      let i1 := rr.syncDataIndex + 1
      let i2 := if i1 ≥ rr.syncDataAllies.length then 0 else i1
      ({ rr with
          alliesData := setAssoc rr.alliesData playerName (env.applyPerm none),
          syncDataIndex := i2,
          nextDataSync := if i2 = 0 then some (env.time + interval) else rr.nextDataSync },
        ps1, some playerName)
    | (.value a, ps1) =>
      let i1 := rr.syncDataIndex + 1
      let i2 := if i1 ≥ rr.syncDataAllies.length then 0 else i1
      ({ rr with
          alliesData := setAssoc rr.alliesData playerName (env.applyPerm (some a)),
          syncDataIndex := i2,
          nextDataSync := some (env.time + interval) },
        ps1, some playerName)

/-- State after n repeated `syncAlliesData` calls, call t seeing
environment `envs t`. -/
def syncAlliesDataRec (cfg : SyncConfig) (interval : Nat) (envs : Nat → Env α)
    (kd : KeyData) (s0 : RRState α × ProviderState α) :
    Nat → RRState α × ProviderState α
  | 0 => s0
  | Nat.succ n =>
    let s := syncAlliesDataRec cfg interval envs kd s0 n
    let o := syncAlliesData cfg interval (envs n) kd s.1 s.2
    (o.1, o.2.1)

/-- The peer polled by cycle t of the round robin (`none` when the
gate blocked that cycle). -/
def syncAlliesDataPolled (cfg : SyncConfig) (interval : Nat) (envs : Nat → Env α)
    (kd : KeyData) (s0 : RRState α × ProviderState α) (t : Nat) : Option Str :=
  let s := syncAlliesDataRec cfg interval envs kd s0 t
  (syncAlliesData cfg interval (envs t) kd s.1 s.2).2.2

end Alliance

/-- The key record of the C6 counterexample: expiry set and a pending
replacement key, but no active key. -/
def c6kd : Alliance.KeyData :=
  { key := none, newKey := some (List.replicate 64 48), expire := some 5, leaderRoom := none }

/-- Claim C6, counterexample: the expiry transition does *not* run for
every key record with `expire` set — the source also requires a truthy
active key.  For a record with `key` absent, `newKey` pending and
`expire = 5`, at tick 5 nothing happens: `key` is not replaced by
`newKey`, nothing is cleared, nothing is persisted. -/
theorem claim_C6_counterexample :
    Alliance.updateExpiredKey c6kd 5 =
      { fired := false, kd := c6kd, notified := false, saved := false } ∧
      c6kd.expire = some 5 ∧ c6kd.newKey ≠ c6kd.key := by
  refine ⟨by decide, by decide, by decide⟩

/-- Claim C6 (amended): for every key record with a truthy active key
and `expire = T` (T nonzero), ticks before T leave the record
untouched; from tick T on the transition runs: `key := newKey`
(possibly leaving no key), `newKey` and `expire` are cleared, the
record is persisted, and the key-changed notification fires exactly
when the resulting key is truthy; and the transition runs exactly
once — applying `updateExpiredKey` again to the result is a no-op at
every tick. -/
theorem claim_C6 (kd : Alliance.KeyData) (T : Nat)
    (hkey : Alliance.truthyStr kd.key = true) (hexp : kd.expire = some T) (hT : T ≠ 0) :
    (∀ t, t < T → Alliance.updateExpiredKey kd t =
      { fired := false, kd := kd, notified := false, saved := false }) ∧
    (∀ t, T ≤ t → Alliance.updateExpiredKey kd t =
      { fired := true,
        kd := { key := kd.newKey, newKey := none, expire := none,
                leaderRoom := kd.leaderRoom },
        notified := Alliance.truthyStr kd.newKey, saved := true }) ∧
    (∀ t t2, T ≤ t →
      Alliance.updateExpiredKey (Alliance.updateExpiredKey kd t).kd t2 =
        { fired := false, kd := (Alliance.updateExpiredKey kd t).kd, notified := false,
          saved := false }) := by
  have htr : Alliance.truthyNat kd.expire = true := by
    rw [hexp]
    simp [Alliance.truthyNat, hT]
  refine ⟨?_, ?_, ?_⟩
  · intro t ht
    unfold Alliance.updateExpiredKey
    rw [if_neg]
    intro hcon
    rw [hexp] at hcon
    simp at hcon
    omega
  · intro t ht
    unfold Alliance.updateExpiredKey
    rw [if_pos ⟨hkey, htr, by rw [hexp]; simpa using ht⟩]
  · intro t t2 ht
    have h2 := by
      exact (by
        unfold Alliance.updateExpiredKey
        rw [if_pos ⟨hkey, htr, by rw [hexp]; simpa using ht⟩] :
        Alliance.updateExpiredKey kd t =
          { fired := true,
            kd := { key := kd.newKey, newKey := none, expire := none,
                    leaderRoom := kd.leaderRoom },
            notified := Alliance.truthyStr kd.newKey, saved := true })
    rw [h2]
    unfold Alliance.updateExpiredKey
    rw [if_neg]
    simp [Alliance.truthyNat]

/-- Concrete instance of `claim_C6`: a record with key "0"*64,
replacement "1"*64 and expiry 100 is inert at tick 99 and rotates at
tick 100. -/
theorem claim_C6_witness :
    Alliance.updateExpiredKey
        { key := some (List.replicate 64 48), newKey := some (List.replicate 64 49),
          expire := some 100, leaderRoom := none } 99 =
      { fired := false,
        kd := { key := some (List.replicate 64 48), newKey := some (List.replicate 64 49),
                expire := some 100, leaderRoom := none },
        notified := false, saved := false } ∧
    Alliance.updateExpiredKey
        { key := some (List.replicate 64 48), newKey := some (List.replicate 64 49),
          expire := some 100, leaderRoom := none } 100 =
      { fired := true,
        kd := { key := some (List.replicate 64 49), newKey := none, expire := none,
                leaderRoom := none },
        notified := true, saved := true } := by
  have h := claim_C6
    { key := some (List.replicate 64 48), newKey := some (List.replicate 64 49),
      expire := some 100, leaderRoom := none } 100 (by decide) (by decide) (by decide)
  exact ⟨h.1 99 (by omega), by rw [h.2.1 100 (by omega)]; decide⟩

namespace Alliance

/-- Single-step form of claim C9: with the key record loaded, no
truthy active key but a truthy pending `newKey`, `syncMember` returns
`undefined` (the `requestKey` outcome) without touching any state, and
without scanning the transfer ledger or sending a request. -/
theorem syncMember_stuck {α : Type} (cfg : SyncConfig) (env : Env α)
    (st : SyncState α) (kd : KeyData) (hkd : st.keyData = some kd)
    (hkey : truthyStr kd.key = false) (hnew : truthyStr kd.newKey = true) :
    syncMember cfg env st =
      { result := .undef, keyData := some kd, provider := st.provider, savedKeyData := none,
        scannedTransactions := false, sentRequest := false } := by
  have hex : updateExpiredKey kd env.time =
      { fired := false, kd := kd, notified := false, saved := false } := by
    unfold updateExpiredKey
    rw [if_neg]
    intro hcon
    rw [hkey] at hcon
    exact absurd hcon.1 (by simp)
  have hrq : requestKey cfg env kd =
      { result := .undef, kd := kd, scannedTransactions := false, sentRequest := false,
        saved := false } := by
    unfold requestKey
    rw [if_pos hnew]
  simp [syncMember, hkd, hex, hrq, hkey]

end Alliance

/-- Claim C9: from any state whose key record has no truthy active key
but a truthy pending `newKey`, the sync path never recovers:
every `syncMember` call returns the `requestKey` outcome `undefined`
immediately — never scanning inbound transfers, never sending a
request, never persisting — and the state after any number of calls,
under arbitrary environments, is unchanged. -/
theorem claim_C9 {α : Type} (cfg : Alliance.SyncConfig) (envs : Nat → Alliance.Env α)
    (st : Alliance.SyncState α) (kd : Alliance.KeyData)
    (hkd : st.keyData = some kd) (hkey : Alliance.truthyStr kd.key = false)
    (hnew : Alliance.truthyStr kd.newKey = true) :
    (∀ n, Alliance.syncMemberRec cfg envs st n = st) ∧
    (∀ n, Alliance.syncMember cfg (envs n) (Alliance.syncMemberRec cfg envs st n) =
      { result := .undef, keyData := some kd, provider := st.provider, savedKeyData := none,
        scannedTransactions := false, sentRequest := false }) := by
  have hrec : ∀ n, Alliance.syncMemberRec cfg envs st n = st := by
    intro n
    induction n with
    | zero => rfl
    | succ n ih =>
      show (let o := Alliance.syncMember cfg (envs n) (Alliance.syncMemberRec cfg envs st n);
        ({ keyData := o.keyData, provider := o.provider } : Alliance.SyncState α)) = st
      rw [ih, Alliance.syncMember_stuck cfg (envs n) st kd hkd hkey hnew]
      cases st with
      | mk skd sprov =>
        simp at hkd
        simp [hkd]
  refine ⟨hrec, fun n => ?_⟩
  rw [hrec n]
  exact Alliance.syncMember_stuck cfg (envs n) st kd hkd hkey hnew

/-- A minimal concrete environment over the trivial payload type,
used by the concrete instances below. -/
def unitEnv (time : Nat) (fs : Option Alliance.ForeignSeg)
    (txs : List Alliance.Transaction) : Alliance.Env Unit where
  time := time
  foreignSegment := fs
  localKeySegment := none
  transactions := txs
  terminals := []
  parse := fun _ => none
  keyExpireTime := fun _ => none
  room := fun _ => none
  isEmptyObj := fun _ => false
  applyPerm := fun o => o

/-- A concrete sync configuration. -/
def unitCfg : Alliance.SyncConfig where
  leaderPlayerName := [76]
  keySegmentId := 65
  segmentId := 66
  dataSegmentId := 67
  interval := 100

/-- An idle provider state over the trivial payload type. -/
def unitPs : Alliance.ProviderState Unit where
  requestedPlayerName := none
  requestedSegmentId := none
  dataRaw := none
  data := none

/-- Concrete instance of `claim_C9`: a record with `newKey` pending
and no key stays stuck for e.g. 5 ticks. -/
def c9kd : Alliance.KeyData :=
  { key := none, newKey := some (List.replicate 64 49), expire := none, leaderRoom := none }

theorem claim_C9_witness :
    Alliance.syncMemberRec unitCfg (fun _ => unitEnv 0 none [])
        { keyData := some c9kd, provider := unitPs } 5 =
      { keyData := some c9kd, provider := unitPs } :=
  (claim_C9 _ _ _ c9kd rfl (by decide) (by decide)).1 5

/-- Claim C3 (amended): when the leader-roster poll is made with the
current (not the new) key and comes back decryption-failed,
`syncMember` *replaces* the key record: `key` is cleared, `newKey` and
`expire` are dropped (the replacement object literal has no `newKey`
field and `expire: null`), only `leaderRoom` is preserved; the record
is persisted and the call reports pending (`NEXT_TICK`). -/
theorem claim_C3 {α : Type} (cfg : Alliance.SyncConfig) (env : Alliance.Env α)
    (st : Alliance.SyncState α) (kd : Alliance.KeyData)
    (hkd : st.keyData = some kd)
    (hkey : Alliance.truthyStr kd.key = true)
    (hfar : ¬ (Alliance.truthyNat kd.expire = true ∧
      env.time ≥ kd.expire.getD 0 - 1000))
    (hnonew : (Alliance.truthyStr kd.newKey && ! Alliance.truthyNat kd.expire) = false)
    (hpoll : (Alliance.readEncryptedSegment env.parse env.foreignSegment st.provider
        cfg.leaderPlayerName cfg.segmentId (kd.key.getD [])).1 =
      Alliance.EncResult.errDecryptionFailed) :
    Alliance.syncMember cfg env st =
      { result := .nextTick,
        keyData := some
          { key := none, newKey := none, expire := none, leaderRoom := kd.leaderRoom },
        provider := (Alliance.readEncryptedSegment env.parse env.foreignSegment st.provider
          cfg.leaderPlayerName cfg.segmentId (kd.key.getD [])).2,
        savedKeyData := some
          { key := none, newKey := none, expire := none, leaderRoom := kd.leaderRoom },
        scannedTransactions := false, sentRequest := false } := by
  have hex : Alliance.updateExpiredKey kd env.time =
      { fired := false, kd := kd, notified := false, saved := false } := by
    unfold Alliance.updateExpiredKey
    rw [if_neg]
    intro hcon
    exact hfar ⟨hcon.2.1, le_trans (Nat.sub_le _ _) hcon.2.2⟩
  have hcond : ¬ (¬ Alliance.truthyStr kd.key = true ∨
      (Alliance.truthyNat kd.expire = true ∧ env.time ≥ kd.expire.getD 0 - 1000)) := by
    intro h
    rcases h with h | h
    · exact h hkey
    · exact hfar h
  rcases hre2 : Alliance.readEncryptedSegment env.parse env.foreignSegment st.provider
      cfg.leaderPlayerName cfg.segmentId (kd.key.getD []) with ⟨r, ps1⟩
  rw [hre2] at hpoll
  simp only at hpoll
  subst hpoll
  simp only [Alliance.syncMember, hkd, hex]
  rw [if_neg (by simp)]
  rw [if_neg hcond]
  simp only [hnonew, Bool.false_eq_true, if_false, hre2]

/-- The key record of the C3 counterexample: active key "0"*64,
pending replacement "1"*64, far-future expiry and a leader room. -/
def c3kd : Alliance.KeyData :=
  { key := some (List.replicate 64 48), newKey := some (List.replicate 64 49),
    expire := some 5000, leaderRoom := some [87] }

/-- Provider already subscribed to the leader roster segment. -/
def c3ps : Alliance.ProviderState Unit :=
  { requestedPlayerName := some [76], requestedSegmentId := some 66, dataRaw := none,
    data := none }

/-- Claim C3, counterexample: the claim's frame condition fails on
`newKey` — it is *not* preserved.  In a state with a pending
replacement key and a far-future expiry, a stale-key decryption
failure (a settled roster segment "AB" that does not decrypt under the
current key) wipes `newKey` (and `expire`) along with `key`. -/
theorem claim_C3_counterexample :
    (Alliance.syncMember unitCfg (unitEnv 0 (some ⟨[76], 66, [65, 66]⟩) [])
        { keyData := some c3kd, provider := c3ps }).keyData =
      some { key := none, newKey := none, expire := none, leaderRoom := some [87] } ∧
    (Alliance.syncMember unitCfg (unitEnv 0 (some ⟨[76], 66, [65, 66]⟩) [])
        { keyData := some c3kd, provider := c3ps }).result = .nextTick ∧
    c3kd.newKey ≠ none := by
  refine ⟨by decide, by decide, by decide⟩

/-- The key record of the C3 witness: an active key, no pending
replacement, no expiry. -/
def c3wkd : Alliance.KeyData :=
  { key := some (List.replicate 64 48), newKey := none, expire := none,
    leaderRoom := some [87] }

/-- Concrete instance of `claim_C3`: a stale-key decryption failure
resets the record to key-less (leader room kept) and reports pending. -/
theorem claim_C3_witness :
    (Alliance.syncMember unitCfg (unitEnv 0 (some ⟨[76], 66, [65, 66]⟩) [])
        { keyData := some c3wkd, provider := c3ps }).result = .nextTick ∧
    (Alliance.syncMember unitCfg (unitEnv 0 (some ⟨[76], 66, [65, 66]⟩) [])
        { keyData := some c3wkd, provider := c3ps }).keyData =
      some { key := none, newKey := none, expire := none, leaderRoom := some [87] } := by
  have h := claim_C3 unitCfg (unitEnv 0 (some ⟨[76], 66, [65, 66]⟩) [])
    { keyData := some c3wkd, provider := c3ps } c3wkd rfl (by decide) (by decide)
    (by decide) (by decide)
  rw [h]
  exact ⟨rfl, rfl⟩

namespace Alliance

open Crypt (Str decrypt)

/-- A key accepted by `readKeyFromTransactions` is always a 64-unit
string, stored either as a replacement (`newKey`, from a 66-unit
description minus its 2-unit delivery tag) or directly (`key`). -/
theorem readKeyFromTransactions_accepted (leader : Str) (time : Nat) :
    ∀ (txs : List Transaction) (i : Nat) (kd kd1 : KeyData),
      readKeyFromTransactions leader time kd txs i = (true, kd1) →
      ∃ d : Str, d.length = 64 ∧
        (kd1 = { kd with newKey := some d } ∨ kd1 = { kd with key := some d }) := by
  intro txs
  induction txs with
  | nil =>
    intro i kd kd1 h
    simp [readKeyFromTransactions] at h
  | cons tx rest ih =>
    intro i kd kd1 h
    rw [readKeyFromTransactions] at h
    split at h
    · simp at h
    · split at h
      · rename_i hmatch
        simp only [Prod.mk.injEq] at h
        refine ⟨tx.description.drop 2, ?_, Or.inl h.2.symm⟩
        rw [List.length_drop, hmatch.2.2.2]
      · split at h
        · rename_i hmatch
          simp only [Prod.mk.injEq] at h
          exact ⟨tx.description, hmatch.2.2.2, Or.inr h.2.symm⟩
        · split at h
          · simp at h
          · exact ih (i + 1) kd kd1 h

end Alliance

/-- Claim C2 (amended): the cipher keys the repo consumes are
64-hex-digit strings, not 32: `hexStringToUint32Array` yields one
32-bit word (reduced mod 2^32) per 8 characters — 8 words (256 bits)
for the 64-character keys the key-delivery side channel accepts; for
an 8-word key array the signing tag prepended by `encrypt` via
`sign` is exactly words 4-7 (`drop 4`); and the cipher's mixing
function only ever consults words 0-3 of the key (128 bits). -/
theorem claim_C2 (s : Crypt.Str) (leader : Crypt.Str) (time : Nat)
    (txs : List Alliance.Transaction) (i : Nat) (kd kd1 : Alliance.KeyData)
    (haccept : Alliance.readKeyFromTransactions leader time kd txs i = (true, kd1)) :
    ((Crypt.hexStringToUint32Array s).length = s.length >>> 3 ∧
      ∀ w ∈ Crypt.hexStringToUint32Array s, w < Crypt.M32) ∧
    (∃ d : Crypt.Str, d.length = 64 ∧ (Crypt.hexStringToUint32Array d).length = 8 ∧
      (kd1 = { kd with newKey := some d } ∨ kd1 = { kd with key := some d })) ∧
    (∀ (m k2 : List Nat), k2.length = 8 → Crypt.sign m (k2.drop 4) = k2.drop 4 ++ m) ∧
    (∀ (sum y z p : Nat) (k : List Nat),
      Crypt.mx sum y z p ((sum >>> 2) &&& 3) k =
        Crypt.mx sum y z p ((sum >>> 2) &&& 3) (k.take 4)) := by
  refine ⟨⟨Crypt.hexStringToUint32Array_length s, Crypt.hexStringToUint32Array_bounds s⟩,
    ?_, ?_, ?_⟩
  · rcases Alliance.readKeyFromTransactions_accepted leader time txs i kd kd1 haccept with
      ⟨d, hd, hor⟩
    exact ⟨d, hd, by rw [Crypt.hexStringToUint32Array_length, hd]; decide, hor⟩
  · intro m k2 h8
    exact Crypt.sign_eq_append m (k2.drop 4) (by rw [List.length_drop, h8])
  · intro sum y z p k
    unfold Crypt.mx
    have he : (sum >>> 2) &&& 3 < 4 :=
      Nat.and_lt_two_pow _ (show (3:Nat) < 2 ^ 2 by norm_num)
    have hp : p &&& 3 < 4 := Nat.and_lt_two_pow _ (show (3:Nat) < 2 ^ 2 by norm_num)
    have hix : (p &&& 3) ^^^ ((sum >>> 2) &&& 3) < 4 := by
      have := Nat.xor_lt_two_pow (n := 2) (by simpa using hp) (by simpa using he)
      simpa using this
    have : (k.take 4).getD ((p &&& 3) ^^^ ((sum >>> 2) &&& 3)) 0 =
        k.getD ((p &&& 3) ^^^ ((sum >>> 2) &&& 3)) 0 := by
      rw [List.getD_eq_getElem?_getD, List.getD_eq_getElem?_getD,
        List.getElem?_take_of_lt hix]
    rw [this]

/-- Claim C2, counterexample: the key-delivery side channel accepts a
64-character description as a direct key — not a 32-hex-digit string —
and it parses to 8 words, not 4. -/
theorem claim_C2_counterexample :
    Alliance.readKeyFromTransactions [76] 0 Alliance.emptyKeyData
        [{ time := 0, sender := some [76], resourceType := Alliance.RESOURCE_ENERGY,
           amount := 3, description := List.replicate 64 48 }] 0 =
      (true, { Alliance.emptyKeyData with key := some (List.replicate 64 48) }) ∧
    (List.replicate 64 (48:Nat)).length ≠ 32 ∧
    (Crypt.hexStringToUint32Array (List.replicate 64 48)).length = 8 ∧ (8:Nat) ≠ 4 := by
  refine ⟨by decide, by decide, by decide, by decide⟩

/-- Concrete instance of `claim_C2`: a delivered key parses to 8
words. -/
theorem claim_C2_witness :
    (Crypt.hexStringToUint32Array (List.replicate 64 48)).length =
      (List.replicate 64 (48:Nat)).length >>> 3 :=
  (claim_C2 (List.replicate 64 48) [76] 0
    [{ time := 0, sender := some [76], resourceType := Alliance.RESOURCE_ENERGY,
       amount := 3, description := List.replicate 64 48 }] 0 Alliance.emptyKeyData
    { Alliance.emptyKeyData with key := some (List.replicate 64 48) } (by decide)).1.1

namespace Alliance

open Crypt (Str decrypt)

/-- Inversion of a raw-mode data-bearing `readSegment`: the raw string
comes verbatim from a settled foreign segment whose owner and id equal
the call's target (which also is the active subscription), and it is
nonempty. -/
theorem readSegment_rawStr_inv {α : Type} (parse : Str → Option α)
    (fs : Option ForeignSeg) (ps : ProviderState α) (p : Str) (id : Nat)
    (s : Str) (ps1 : ProviderState α)
    (h : readSegment parse fs ps p id true = (.rawStr s, ps1)) :
    ∃ f, fs = some f ∧ f.username = p ∧ f.id = id ∧ f.data = s ∧ s ≠ [] ∧
      ps.requestedPlayerName = some p ∧ ps.requestedSegmentId = some id := by
  unfold readSegment at h
  by_cases hc : ps.requestedPlayerName ≠ some p ∨ ps.requestedSegmentId ≠ some id
  · rw [if_pos hc] at h
    simp at h
  · rw [if_neg hc] at h
    push_neg at hc
    cases fs with
    | none =>
      simp only [read] at h
      simp at h
    | some f =>
      simp only [read] at h
      by_cases hd : some f.username ≠ ps.requestedPlayerName ∨
          some f.id ≠ ps.requestedSegmentId ∨ f.data = []
      · rw [if_pos hd] at h
        simp at h
      · rw [if_neg hd] at h
        push_neg at hd
        simp only [if_true] at h
        simp only [ReadResult.rawStr.injEq, Prod.mk.injEq] at h
        refine ⟨f, rfl, ?_, ?_, h.1, ?_, hc.1, hc.2⟩
        · have hu := hd.1
          rw [hc.1] at hu
          simpa using hu
        · have hi := hd.2.1
          rw [hc.2] at hi
          simpa using hi
        · rw [← h.1]
          exact hd.2.2

/-- Data-bearing results of `readSegment` (raw string or parsed
object) always come from a settled foreign segment matching the
call's own target. -/
theorem readSegment_isData_inv {α : Type} (parse : Str → Option α)
    (fs : Option ForeignSeg) (ps : ProviderState α) (p : Str) (id : Nat) (raw : Bool) :
    (readSegment parse fs ps p id raw).1.isData = true →
    ∃ f, fs = some f ∧ f.username = p ∧ f.id = id ∧ f.data ≠ [] := by
  intro hdata
  unfold readSegment at hdata
  by_cases hc : ps.requestedPlayerName ≠ some p ∨ ps.requestedSegmentId ≠ some id
  · rw [if_pos hc] at hdata
    simp [ReadResult.isData] at hdata
  · rw [if_neg hc] at hdata
    push_neg at hc
    cases fs with
    | none =>
      simp only [read] at hdata
      simp [ReadResult.isData] at hdata
    | some f =>
      simp only [read] at hdata
      by_cases hd : some f.username ≠ ps.requestedPlayerName ∨
          some f.id ≠ ps.requestedSegmentId ∨ f.data = []
      · rw [if_pos hd] at hdata
        simp [ReadResult.isData] at hdata
      · push_neg at hd
        refine ⟨f, rfl, ?_, ?_, hd.2.2⟩
        · have hu := hd.1
          rw [hc.1] at hu
          simpa using hu
        · have hi := hd.2.1
          rw [hc.2] at hi
          simpa using hi

end Alliance

/-- Claim C5: when the settled encrypted segment's decryption does not
pass the signature check — the first 4 decrypted words differ from the
key's tag words 4-7 (`signMismatch`), `checkSign` discards everything
and the plaintext is empty — `readEncryptedSegment` classifies the
read as `ERR_DECRYPTION_FAILED`, an outcome distinct from
`ERR_JSON_PARSE_FAILED`; the decrypted data is discarded (the result
carries no payload) and the function returns normally (the only
throwing operation, `JSON.parse`, is never reached). -/
theorem claim_C5 {α : Type} (parse : Crypt.Str → Option α)
    (fs : Option Alliance.ForeignSeg) (ps : Alliance.ProviderState α)
    (p : Crypt.Str) (id : Nat) (key : Crypt.Str) (s : Crypt.Str)
    (ps1 : Alliance.ProviderState α)
    (hraw : Alliance.readSegment parse fs ps p id true = (.rawStr s, ps1))
    (hmismatch : Crypt.signMismatch
      (Crypt.decryptUint32Array (Crypt.safeStringToUint32Array s)
        (Crypt.hexStringToUint32Array key))
      ((Crypt.hexStringToUint32Array key).drop 4) = true) :
    Alliance.readEncryptedSegment parse fs ps p id key =
      (Alliance.EncResult.errDecryptionFailed, ps1) ∧
    (Alliance.EncResult.errDecryptionFailed : Alliance.EncResult α) ≠
      .errJsonParseFailed := by
  have hne : s ≠ [] := by
    rcases Alliance.readSegment_rawStr_inv parse fs ps p id s ps1 hraw with
      ⟨f, _, _, _, _, hne, _, _⟩
    exact hne
  have hdec : Crypt.decrypt s key = [] := by
    simp only [Crypt.decrypt, Crypt.checkSign, hmismatch, if_true]
    rfl
  constructor
  · simp only [Alliance.readEncryptedSegment, hraw]
    rw [if_neg hne, if_pos (by rw [hdec]; simp)]
  · simp

/-- The encrypted roster data of the C5 witness: a settled two-unit
string "AB" that does not decrypt under the all-zero key. -/
def c5fs : Alliance.ForeignSeg := { username := [76], id := 66, data := [65, 66] }

/-- Concrete instance of `claim_C5`: a garbage settled segment is
classified as decryption-failed. -/
theorem claim_C5_witness :
    Alliance.readEncryptedSegment (fun _ => (none : Option Unit)) (some c5fs) c3ps
        [76] 66 (List.replicate 64 48) =
      (Alliance.EncResult.errDecryptionFailed,
        { requestedPlayerName := some [76], requestedSegmentId := some 66,
          dataRaw := some [65, 66], data := none }) :=
  (claim_C5 (fun _ => (none : Option Unit)) (some c5fs) c3ps [76] 66
    (List.replicate 64 48) [65, 66]
    { requestedPlayerName := some [76], requestedSegmentId := some 66,
      dataRaw := some [65, 66], data := none }
    (by decide) (by decide)).1

/-- Claim C10: for a settled nonempty payload, `readEncryptedSegment`
reports `ERR_DECRYPTION_FAILED` exactly when the first UTF-16 unit of
the decrypted plaintext is not `'{'` (0x7B) — in particular a payload
correctly encrypted under the right key whose JSON text is not an
object (an array, string or number) is reported as decryption-failed
rather than as a value or a parse failure. -/
theorem claim_C10 {α : Type} (parse : Crypt.Str → Option α)
    (fs : Option Alliance.ForeignSeg) (ps : Alliance.ProviderState α)
    (p : Crypt.Str) (id : Nat) (key : Crypt.Str) (s : Crypt.Str)
    (ps1 : Alliance.ProviderState α)
    (hraw : Alliance.readSegment parse fs ps p id true = (.rawStr s, ps1)) :
    (Alliance.readEncryptedSegment parse fs ps p id key).1 =
        Alliance.EncResult.errDecryptionFailed ↔
      (Crypt.decrypt s key).head? ≠ some 0x7B := by
  have hne : s ≠ [] := by
    rcases Alliance.readSegment_rawStr_inv parse fs ps p id s ps1 hraw with
      ⟨f, _, _, _, _, hne, _, _⟩
    exact hne
  simp only [Alliance.readEncryptedSegment, hraw]
  rw [if_neg hne]
  by_cases hh : (Crypt.decrypt s key).head? ≠ some 0x7B
  · rw [if_pos hh]
    simp [hh]
  · rw [if_neg hh]
    simp only [hh, iff_false]
    match parse (Crypt.decrypt s key) with
    | some a => simp
    | none => simp

/-- The C10 witness environment: the leader's segment holds the
encryption of the JSON array "[1]" under the all-zero key. -/
def c10data : Crypt.Str := Crypt.encrypt [91, 49, 93] (List.replicate 64 48)

/-- Concrete instance of `claim_C10`: a payload that decrypts
correctly to the JSON array text "[1]" (first unit `'['`) is reported
as `ERR_DECRYPTION_FAILED`. -/
theorem claim_C10_witness :
    (Alliance.readEncryptedSegment (fun _ => (some () : Option Unit))
        (some { username := [76], id := 66, data := c10data }) c3ps
        [76] 66 (List.replicate 64 48)).1 =
      Alliance.EncResult.errDecryptionFailed := by
  refine (claim_C10 (fun _ => (some () : Option Unit))
    (some { username := [76], id := 66, data := c10data }) c3ps [76] 66
    (List.replicate 64 48) c10data
    { requestedPlayerName := some [76], requestedSegmentId := some 66,
      dataRaw := some c10data, data := none }
    (by decide)).mpr ?_
  decide

namespace Alliance

open Crypt (Str)

/-- One `readSegment` call of a trace: its target, mode and the host's
settled foreign segment at that moment. -/
structure ReadCall where
  playerName : Str
  segmentId : Nat
  raw : Bool
  foreignSegment : Option ForeignSeg
deriving DecidableEq

/-- Run a sequence of `readSegment` calls against the single
subscription slot, collecting the results. -/
def runReads {α : Type} (parse : Str → Option α) :
    ProviderState α → List ReadCall → List (ReadResult α)
  | _, [] => []
  | ps, c :: rest =>
    let o := readSegment parse c.foreignSegment ps c.playerName c.segmentId c.raw
    o.1 :: runReads parse o.2 rest

/-- Every data-bearing result of a call trace comes from a settled
segment matching that call's own target. -/
theorem runReads_data_matches {α : Type} (parse : Str → Option α) :
    ∀ (calls : List ReadCall) (ps : ProviderState α) (i : Nat) (r : ReadResult α),
      (runReads parse ps calls).get? i = some r → r.isData = true →
      ∃ c f, calls.get? i = some c ∧ c.foreignSegment = some f ∧
        f.username = c.playerName ∧ f.id = c.segmentId := by
  intro calls
  induction calls with
  | nil =>
    intro ps i r h _
    simp [runReads] at h
  | cons c rest ih =>
    intro ps i r h hdata
    rw [runReads] at h
    cases i with
    | zero =>
      simp only [List.get?_cons_zero, Option.some.injEq] at h
      subst h
      rcases readSegment_isData_inv parse c.foreignSegment ps c.playerName c.segmentId c.raw
        hdata with ⟨f, hf, hu, hi, _⟩
      exact ⟨c, f, rfl, hf, hu, hi⟩
    | succ j =>
      simp only [List.get?_cons_succ] at h
      rcases ih _ j r h hdata with ⟨c2, f, hc2, hf, hu, hi⟩
      exact ⟨c2, f, by simpa using hc2, hf, hu, hi⟩

end Alliance

/-- Claim C7: retargeting the single subscription slot returns
`NEXT_TICK` and never yields data on that same call; and after
retargeting from (p1, id1) to (p2, id2), any further trace of
`readSegment` calls whose targets avoid (p1, id1) can only produce
data-bearing results attributed to the producing call's own target —
never to (p1, id1). -/
theorem claim_C7 {α : Type} (parse : Crypt.Str → Option α)
    (ps : Alliance.ProviderState α) (p1 p2 : Crypt.Str) (id1 id2 : Nat)
    (fs : Option Alliance.ForeignSeg) (raw : Bool)
    (hcur : ps.requestedPlayerName = some p1 ∧ ps.requestedSegmentId = some id1)
    (hdiff : p2 ≠ p1 ∨ id2 ≠ id1) :
    Alliance.readSegment parse fs ps p2 id2 raw =
      (.nextTick, Alliance.requestSegment ps p2 id2) ∧
    (∀ (calls : List Alliance.ReadCall) (i : Nat) (r : Alliance.ReadResult α),
      (∀ c ∈ calls, ¬ (c.playerName = p1 ∧ c.segmentId = id1)) →
      (Alliance.runReads parse (Alliance.requestSegment ps p2 id2) calls).get? i = some r →
      r.isData = true →
      ∃ c f, calls.get? i = some c ∧ c.foreignSegment = some f ∧
        f.username = c.playerName ∧ f.id = c.segmentId ∧
        ¬ (f.username = p1 ∧ f.id = id1)) := by
  constructor
  · unfold Alliance.readSegment
    rw [if_pos]
    rcases hdiff with h | h
    · left
      rw [hcur.1]
      simp [Ne.symm h]
    · right
      rw [hcur.2]
      simp [Ne.symm h]
  · intro calls i r havoid hget hdata
    rcases Alliance.runReads_data_matches parse calls _ i r hget hdata with
      ⟨c, f, hc, hf, hu, hi⟩
    refine ⟨c, f, hc, hf, hu, hi, ?_⟩
    intro hcon
    have hcmem : c ∈ calls := List.get?_mem hc
    exact havoid c hcmem ⟨by rw [← hu]; exact hcon.1, by rw [← hi]; exact hcon.2⟩

/-- Concrete instance of `claim_C7`: with the slot on ([80], 5),
retargeting to ([81], 6) returns `NEXT_TICK`, and a following call for
([81], 6) whose settled segment is ([81], 6, "A") yields data
attributed to ([81], 6), not to ([80], 5). -/
theorem claim_C7_witness :
    Alliance.readSegment (fun _ => (none : Option Unit))
        (some { username := [80], id := 5, data := [65] })
        { requestedPlayerName := some [80], requestedSegmentId := some 5,
          dataRaw := none, data := none }
        [81] 6 true =
      (.nextTick,
        Alliance.requestSegment
          { requestedPlayerName := some [80], requestedSegmentId := some 5,
            dataRaw := none, data := none }
          [81] 6) :=
  (claim_C7 (fun _ => (none : Option Unit))
    { requestedPlayerName := some [80], requestedSegmentId := some 5,
      dataRaw := none, data := none }
    [80] [81] 5 6 (some { username := [80], id := 5, data := [65] }) true
    ⟨rfl, rfl⟩ (Or.inl (by decide))).1

namespace Alliance

open Crypt (Str)

/-- One ungated round-robin cycle whose poll returns a definite value:
the peer under the cursor is polled, its payload cached, the cursor
advanced with wraparound, the gate re-armed. -/
theorem syncAlliesData_value_step {α : Type} (cfg : SyncConfig) (interval : Nat)
    (env : Env α) (kd : KeyData) (rr : RRState α) (ps : ProviderState α) (a : α)
    (hgate : rrGated rr env.time = false)
    (hval : (readAllyData cfg env kd ps (rr.syncDataAllies.getD rr.syncDataIndex [])).1 =
      .value a) :
    syncAlliesData cfg interval env kd rr ps =
      ({ rr with
          alliesData := setAssoc rr.alliesData (rr.syncDataAllies.getD rr.syncDataIndex [])
            (env.applyPerm (some a)),
          syncDataIndex :=
            if rr.syncDataIndex + 1 ≥ rr.syncDataAllies.length then 0
            else rr.syncDataIndex + 1,
          nextDataSync := some (env.time + interval) },
        (readAllyData cfg env kd ps (rr.syncDataAllies.getD rr.syncDataIndex [])).2,
        some (rr.syncDataAllies.getD rr.syncDataIndex [])) := by
  rcases hre : readAllyData cfg env kd ps (rr.syncDataAllies.getD rr.syncDataIndex []) with
    ⟨r, ps1⟩
  rw [hre] at hval
  simp only at hval
  subst hval
  simp only [syncAlliesData, hgate, Bool.false_eq_true, if_false, hre]

/-- Circular increment: one step of the cursor. -/
theorem wrap_succ (i k : Nat) (hi : i < k) :
    (if i + 1 ≥ k then 0 else i + 1) = (i + 1) % k := by
  by_cases h : i + 1 ≥ k
  · have : i + 1 = k := by omega
    rw [if_pos h, this, Nat.mod_self]
  · rw [if_neg h, Nat.mod_eq_of_lt (by omega)]

/-- The rotated view of the roster produced by k cycles starting at
cursor i0. -/
theorem rotation_map (allies : List Str) (i0 : Nat) (hi : i0 < allies.length) :
    (List.range allies.length).map
        (fun t => allies.getD ((i0 + t) % allies.length) []) =
      allies.drop i0 ++ allies.take i0 := by
  apply List.ext_getElem?
  intro j
  by_cases hj : j < allies.length
  · rw [List.getElem?_map, List.getElem?_range hj, Option.map_some']
    by_cases hj2 : j < allies.length - i0
    · rw [List.getElem?_append_left (by rw [List.length_drop]; omega), List.getElem?_drop]
      have hlt : i0 + j < allies.length := by omega
      rw [Nat.mod_eq_of_lt hlt]
      rw [List.getD_eq_getElem?_getD, List.getElem?_eq_getElem hlt]
      rfl
    · rw [List.getElem?_append_right (by rw [List.length_drop]; omega)]
      have hlt : j - (allies.length - i0) < i0 := by omega
      rw [List.length_drop, List.getElem?_take_of_lt hlt]
      have hmod : (i0 + j) % allies.length = i0 + j - allies.length := by
        have h1 : i0 + j < 2 * allies.length := by omega
        have h2 : allies.length ≤ i0 + j := by omega
        rw [Nat.mod_eq_sub_mod h2, Nat.mod_eq_of_lt (by omega)]
      rw [hmod]
      have heq : i0 + j - allies.length = j - (allies.length - i0) := by omega
      rw [heq]
      have hlt2 : j - (allies.length - i0) < allies.length := by omega
      rw [List.getD_eq_getElem?_getD, List.getElem?_eq_getElem hlt2]
      rfl
  · rw [List.getElem?_map, List.getElem?_eq_none (by simpa using hj),
      List.getElem?_eq_none
        (by rw [List.length_append, List.length_drop, List.length_take]; omega)]
    rfl

end Alliance

/-- Claim C8: with the filtered roster fixed at k eligible peers and
every cycle's poll passing the gate and returning a definite value
(no failures, no pending), k consecutive eligible cycles of the
round robin poll the peers in the fixed roster order starting at the
cursor, wrapping circularly to 0 after the last peer: cycle t polls
peer `(i0 + t) mod k`, after k cycles the cursor is back where it
started, the roster is unchanged, the polled sequence is exactly a
rotation of the roster, and every peer is polled exactly as often as
it occurs in the roster (once, for the duplicate-free roster
`Object.keys` produces). -/
theorem claim_C8 {α : Type} (cfg : Alliance.SyncConfig) (interval : Nat)
    (envs : Nat → Alliance.Env α) (kd : Alliance.KeyData) (allies : List Crypt.Str)
    (i0 : Nat) (rr0 : Alliance.RRState α) (ps0 : Alliance.ProviderState α)
    (hall : rr0.syncDataAllies = allies) (hi0 : rr0.syncDataIndex = i0)
    (hi : i0 < allies.length)
    (hgate : ∀ t, t < allies.length →
      Alliance.rrGated
        (Alliance.syncAlliesDataRec cfg interval envs kd (rr0, ps0) t).1 (envs t).time =
        false)
    (hval : ∀ t, t < allies.length → ∃ a,
      (Alliance.readAllyData cfg (envs t) kd
        (Alliance.syncAlliesDataRec cfg interval envs kd (rr0, ps0) t).2
        ((Alliance.syncAlliesDataRec cfg interval envs kd (rr0, ps0) t).1.syncDataAllies.getD
          (Alliance.syncAlliesDataRec cfg interval envs kd (rr0, ps0) t).1.syncDataIndex
          [])).1 = .value a) :
    (∀ t, t < allies.length →
      Alliance.syncAlliesDataPolled cfg interval envs kd (rr0, ps0) t =
        some (allies.getD ((i0 + t) % allies.length) [])) ∧
    (Alliance.syncAlliesDataRec cfg interval envs kd (rr0, ps0)
        allies.length).1.syncDataIndex = i0 ∧
    (Alliance.syncAlliesDataRec cfg interval envs kd (rr0, ps0)
        allies.length).1.syncDataAllies = allies ∧
    ((List.range allies.length).map
        (fun t => allies.getD ((i0 + t) % allies.length) []) =
      allies.drop i0 ++ allies.take i0) ∧
    (∀ p, ((List.range allies.length).map
        (fun t => allies.getD ((i0 + t) % allies.length) [])).count p = allies.count p) := by
  have hk : 0 < allies.length := by omega
  have hinv : ∀ t, t ≤ allies.length →
      (Alliance.syncAlliesDataRec cfg interval envs kd (rr0, ps0) t).1.syncDataAllies =
          allies ∧
        (Alliance.syncAlliesDataRec cfg interval envs kd (rr0, ps0) t).1.syncDataIndex =
          (i0 + t) % allies.length := by
    intro t
    induction t with
    | zero =>
      intro _
      refine ⟨hall, ?_⟩
      show rr0.syncDataIndex = (i0 + 0) % allies.length
      rw [hi0, Nat.add_zero, Nat.mod_eq_of_lt hi]
    | succ t ih =>
      intro ht
      have ht' : t < allies.length := by omega
      obtain ⟨ha, hidx⟩ := ih (by omega)
      obtain ⟨a, hres⟩ := hval t ht'
      have hrec1 : Alliance.syncAlliesDataRec cfg interval envs kd (rr0, ps0) (t + 1) =
          ((Alliance.syncAlliesData cfg interval (envs t) kd
              (Alliance.syncAlliesDataRec cfg interval envs kd (rr0, ps0) t).1
              (Alliance.syncAlliesDataRec cfg interval envs kd (rr0, ps0) t).2).1,
            (Alliance.syncAlliesData cfg interval (envs t) kd
              (Alliance.syncAlliesDataRec cfg interval envs kd (rr0, ps0) t).1
              (Alliance.syncAlliesDataRec cfg interval envs kd (rr0, ps0) t).2).2.1) := rfl
      rw [hrec1, Alliance.syncAlliesData_value_step cfg interval (envs t) kd _ _ a
        (hgate t ht') hres]
      refine ⟨ha, ?_⟩
      simp only
      rw [ha, hidx, Alliance.wrap_succ _ _ (Nat.mod_lt _ hk), Nat.mod_add_mod,
        Nat.add_assoc]
  have hpoll : ∀ t, t < allies.length →
      Alliance.syncAlliesDataPolled cfg interval envs kd (rr0, ps0) t =
        some (allies.getD ((i0 + t) % allies.length) []) := by
    intro t ht
    obtain ⟨ha, hidx⟩ := hinv t (by omega)
    obtain ⟨a, hres⟩ := hval t ht
    have hpe : Alliance.syncAlliesDataPolled cfg interval envs kd (rr0, ps0) t =
        (Alliance.syncAlliesData cfg interval (envs t) kd
          (Alliance.syncAlliesDataRec cfg interval envs kd (rr0, ps0) t).1
          (Alliance.syncAlliesDataRec cfg interval envs kd (rr0, ps0) t).2).2.2 := rfl
    rw [hpe, Alliance.syncAlliesData_value_step cfg interval (envs t) kd _ _ a
      (hgate t ht) hres]
    simp only
    rw [ha, hidx]
  obtain ⟨hfa, hfi⟩ := hinv allies.length le_rfl
  refine ⟨hpoll, ?_, hfa, Alliance.rotation_map allies i0 hi, ?_⟩
  · rw [hfi, Nat.add_mod_right, Nat.mod_eq_of_lt hi]
  · intro p
    rw [Alliance.rotation_map allies i0 hi, List.count_append]
    conv_rhs => rw [← List.take_append_drop i0 allies, List.count_append]
    omega

/-- The C8 witness segment: the JSON object text "{}" encrypted under
the all-zero key. -/
def c8data : Crypt.Str := Crypt.encrypt [123, 125] (List.replicate 64 48)

/-- The C8 witness environment: peer "A"'s data segment has settled
with a well-formed encrypted payload. -/
def c8env : Alliance.Env Unit where
  time := 0
  foreignSegment := some { username := [65], id := 67, data := c8data }
  localKeySegment := none
  transactions := []
  terminals := []
  parse := fun _ => some ()
  keyExpireTime := fun _ => none
  room := fun _ => none
  isEmptyObj := fun _ => false
  applyPerm := fun o => o

def c8kd : Alliance.KeyData :=
  { key := some (List.replicate 64 48), newKey := none, expire := none, leaderRoom := none }

def c8rr : Alliance.RRState Unit :=
  { syncDataIndex := 0, syncDataAllies := [[65]], nextDataSync := none, alliesData := [] }

def c8ps : Alliance.ProviderState Unit :=
  { requestedPlayerName := some [65], requestedSegmentId := some 67, dataRaw := none,
    data := none }

/-- Concrete instance of `claim_C8`: with one eligible peer "A" and a
definite value result, the single cycle polls "A" and the cursor wraps
back to 0. -/
theorem claim_C8_witness :
    Alliance.syncAlliesDataPolled unitCfg 20 (fun _ => c8env) c8kd (c8rr, c8ps) 0 =
      some [65] ∧
    (Alliance.syncAlliesDataRec unitCfg 20 (fun _ => c8env) c8kd (c8rr, c8ps)
      1).1.syncDataIndex = 0 := by
  have h := claim_C8 unitCfg 20 (fun _ => c8env) c8kd [[65]] 0 c8rr c8ps rfl rfl
    (by decide)
    (by
      intro t ht
      match t, ht with
      | 0, _ => decide)
    (by
      intro t ht
      match t, ht with
      | 0, _ => exact ⟨(), by decide⟩)
  exact ⟨(h.1 0 (by decide)).trans (by decide), h.2.1⟩
